import Mathlib

/-!
Verification of the cere-cli chat client core against its specification.

The development shallowly embeds the TypeScript sources of the repository:

* `src/api.ts` — the streaming chat-completion response handling
  (`CerebrasAPI.streamChatCompletion`);
* `src/tools.ts` — the tool registry and dispatcher (`ToolManager.executeTool`,
  `ToolManager.evaluateMathExpression`);
* `src/conversation.ts` — the session store (`ConversationManager.saveSession`,
  `loadSession`, `listSessions`, `clear`);
* `src/chat.ts` — the interactive chat engine (`InteractiveChat.handleCommand`,
  `sendMessage`, `searchConversations`, `extractSnippet`).

JavaScript strings are modelled as `List Char` (unicode scalar values); the
file system under the history directory is modelled as an association list
from file name to file contents; `JSON.parse` / `JSON.stringify(·, null, 2)`
are modelled by the executable `Json.parse` / `Json.stringifyPretty` below.
The modelled JSON fragment covers null, booleans, integer numerals, strings,
arrays and objects — every document the client ever serializes stays inside
this fragment (fractional numeric literals never occur in session files).
-/

/-- JSON values, as produced by `JSON.parse` in `conversation.ts` and
`api.ts`.  Numbers are restricted to integers: the session files and the
streaming frames the client manipulates contain no fractional numerals. -/
inductive Json where
  | null : Json
  | bool (b : Bool) : Json
  | num (n : Int) : Json
  | str (s : List Char) : Json
  | arr (elems : List Json) : Json
  | obj (members : List (List Char × Json)) : Json

/-- Opening brace character (written via its code point to keep string
literals brace-free). -/
def lbrace : Char := Char.ofNat 123

/-- Closing brace character. -/
def rbrace : Char := Char.ofNat 125

/-- Whitespace accepted between JSON tokens (space, tab, line feed,
carriage return), as in the JSON grammar used by `JSON.parse`. -/
def isJsonWs (c : Char) : Bool :=
  c = ' ' || c = Char.ofNat 9 || c = Char.ofNat 10 || c = Char.ofNat 13

/-- Skip inter-token whitespace. -/
def skipWs (l : List Char) : List Char := l.dropWhile isJsonWs

/-- Lower-case hexadecimal digit for a value below 16, as emitted by
`JSON.stringify` in `\u00XX` escapes. -/
def hexDigitCh (n : Nat) : Char :=
  if n < 10 then Char.ofNat (48 + n) else Char.ofNat (87 + n)

/-- Escape one character the way `JSON.stringify` does inside string
literals: `"` and `\` get a backslash, the named control escapes are used
where they exist, all other control characters become `\u00XX`, and
everything else is emitted literally. -/
def escChar (c : Char) : List Char :=
  if c = '"' then ['\\', '"']
  else if c = '\\' then ['\\', '\\']
  else if c = Char.ofNat 8 then ['\\', 'b']
  else if c = Char.ofNat 9 then ['\\', 't']
  else if c = Char.ofNat 10 then ['\\', 'n']
  else if c = Char.ofNat 12 then ['\\', 'f']
  else if c = Char.ofNat 13 then ['\\', 'r']
  else if c.toNat < 32 then ['\\', 'u', '0', '0', hexDigitCh (c.toNat / 16), hexDigitCh (c.toNat % 16)]
  else [c]

/-- Escape every character of a string body. -/
def escList : List Char → List Char
  | [] => []
  | c :: cs => escChar c ++ escList cs

/-- A quoted, escaped JSON string literal. -/
def escString (s : List Char) : List Char := '"' :: escList s ++ ['"']

/-- Decimal digits of `n`, least significant first. -/
def natDigitsRev (n : Nat) : List Char :=
  if h : n < 10 then [Nat.digitChar n]
  else Nat.digitChar (n % 10) :: natDigitsRev (n / 10)
decreasing_by exact Nat.div_lt_self (by omega) (by omega)

/-- Decimal representation of a natural number. -/
def natChars (n : Nat) : List Char := (natDigitsRev n).reverse

/-- Decimal representation of an integer, as `JSON.stringify` prints it. -/
def intChars (n : Int) : List Char :=
  if n < 0 then '-' :: natChars n.natAbs else natChars n.natAbs

/-- Two-space indentation at nesting depth `d`, preceded by a newline:
the separator `JSON.stringify(value, null, 2)` inserts between tokens. -/
def nlInd (d : Nat) : List Char := Char.ofNat 10 :: List.replicate (2 * d) ' '

mutual

/-- Pretty-printed serialization of a JSON value at nesting depth `d`,
mirroring `JSON.stringify(value, null, 2)` as used by
`ConversationManager.saveSession`. -/
def stringifyVal (d : Nat) : Json → List Char
  | .num n => intChars n
  | .str s => escString s
  | .bool false => ['f', 'a', 'l', 's', 'e']
  | .bool true => ['t', 'r', 'u', 'e']
  | .null => ['n', 'u', 'l', 'l']
  | .arr [] => ['[', ']']
  | .arr (x :: xs) =>
      '[' :: (nlInd (d + 1) ++ stringifyVal (d + 1) x ++ stringifyItems (d + 1) xs
        ++ nlInd d ++ [']'])
  | .obj [] => [lbrace, rbrace]
  | .obj (kv :: kvs) =>
      lbrace :: (nlInd (d + 1) ++ escString kv.1 ++ [':', ' '] ++ stringifyVal (d + 1) kv.2
        ++ stringifyMembers (d + 1) kvs ++ nlInd d ++ [rbrace])

/-- Serialization of the second and later elements of a non-empty array. -/
def stringifyItems (d : Nat) : List Json → List Char
  | [] => []
  | x :: xs => ',' :: (nlInd d ++ stringifyVal d x ++ stringifyItems d xs)

/-- Serialization of the second and later members of a non-empty object. -/
def stringifyMembers (d : Nat) : List (List Char × Json) → List Char
  | [] => []
  | kv :: kvs =>
      ',' :: (nlInd d ++ escString kv.1 ++ [':', ' '] ++ stringifyVal d kv.2
        ++ stringifyMembers d kvs)

end

/-- The serialized form `JSON.stringify(v, null, 2)` of a JSON document. -/
def Json.stringifyPretty (v : Json) : String := String.mk (stringifyVal 0 v)

/-- Value of a hexadecimal digit character, if it is one. -/
def hexVal (c : Char) : Option Nat :=
  if '0' ≤ c && c ≤ '9' then some (c.toNat - 48)
  else if 'a' ≤ c && c ≤ 'f' then some (c.toNat - 87)
  else if 'A' ≤ c && c ≤ 'F' then some (c.toNat - 55)
  else none

/-- Meaning of the single-character escapes of JSON string literals. -/
def unescCh (c : Char) : Option Char :=
  if c = '"' then some '"'
  else if c = '\\' then some '\\'
  else if c = '/' then some '/'
  else if c = 'b' then some (Char.ofNat 8)
  else if c = 'f' then some (Char.ofNat 12)
  else if c = 'n' then some (Char.ofNat 10)
  else if c = 'r' then some (Char.ofNat 13)
  else if c = 't' then some (Char.ofNat 9)
  else none

/-- Parse the body of a JSON string literal (the opening quote already
consumed), returning the decoded characters and the input after the
closing quote.  Unescaped control characters are rejected, as by
`JSON.parse`.  A `\uXXXX` escape denoting a surrogate code unit is
rejected: Lean characters are unicode scalar values, and no document the
client writes contains such an escape. -/
def parseStrBody : List Char → Option (List Char × List Char)
  | [] => none
  | c :: r =>
    if c = '"' then some ([], r)
    else if c = '\\' then
      match r with
      | [] => none
      | e :: r' =>
        if e = 'u' then
          match r' with
          | h1 :: h2 :: h3 :: h4 :: r2 =>
            match hexVal h1, hexVal h2, hexVal h3, hexVal h4 with
            | some a, some b, some c2, some d =>
              let code := ((a * 16 + b) * 16 + c2) * 16 + d
              if code < 55296 then
                (fun p => (Char.ofNat code :: p.1, p.2)) <$> parseStrBody r2
              else none
            | _, _, _, _ => none
          | _ => none
        else
          match unescCh e with
          | some u => (fun p => (u :: p.1, p.2)) <$> parseStrBody r'
          | none => none
    else if c.toNat < 32 then none
    else (fun p => (c :: p.1, p.2)) <$> parseStrBody r

/-- Greedily read decimal digits, accumulating their value onto `acc`. -/
def parseDigits (acc : Nat) : List Char → Nat × List Char
  | [] => (acc, [])
  | c :: r => if c.isDigit then parseDigits (acc * 10 + (c.toNat - 48)) r else (acc, c :: r)

/-- Parse an integer JSON numeral (optional minus sign, then digits).
Fractional and exponent parts are not modelled: no document the client
serializes contains them, and an input using them is treated as
unparseable. -/
def parseNum : List Char → Option (Int × List Char)
  | [] => none
  | c :: r =>
    if c = '-' then
      match r with
      | d :: r' =>
        if d.isDigit then
          let p := parseDigits (d.toNat - 48) r'
          some (-(p.1 : Int), p.2)
        else none
      | [] => none
    else if c.isDigit then
      let p := parseDigits (c.toNat - 48) r
      some ((p.1 : Int), p.2)
    else none

mutual

/-- Fuel-indexed recursive-descent reading of one JSON value, modelling
`JSON.parse`.  The fuel only bounds nesting of the mutual recursion; the
top-level entry point supplies more fuel than any input can consume. -/
def parseVal : Nat → List Char → Option (Json × List Char)
  | 0, _ => none
  | fuel + 1, l =>
    match skipWs l with
    | [] => none
    | c :: r =>
      if c = 'n' then
        match r with
        | 'u' :: 'l' :: 'l' :: r2 => some (.null, r2)
        | _ => none
      else if c = 't' then
        match r with
        | 'r' :: 'u' :: 'e' :: r2 => some (.bool true, r2)
        | _ => none
      else if c = 'f' then
        match r with
        | 'a' :: 'l' :: 's' :: 'e' :: r2 => some (.bool false, r2)
        | _ => none
      else if c = '"' then (fun p => (.str p.1, p.2)) <$> parseStrBody r
      else if c = '[' then
        match skipWs r with
        | [] => none
        | c1 :: r1 =>
          if c1 = ']' then some (.arr [], r1)
          else do
            let (v, r2) ← parseVal fuel (c1 :: r1)
            let (vs, r3) ← parseArrRest fuel r2
            some (.arr (v :: vs), r3)
      else if c = lbrace then
        match skipWs r with
        | [] => none
        | c1 :: r1 =>
          if c1 = rbrace then some (.obj [], r1)
          else if c1 = '"' then do
            let (k, r2) ← parseStrBody r1
            match skipWs r2 with
            | [] => none
            | c2 :: r3 =>
              if c2 = ':' then do
                let (v, r4) ← parseVal fuel r3
                let (kvs, r5) ← parseObjRest fuel r4
                some (.obj ((k, v) :: kvs), r5)
              else none
          else none
      else (fun p => (.num p.1, p.2)) <$> parseNum (c :: r)

/-- Read the continuation of an array: either the closing bracket or a
comma followed by a further element. -/
def parseArrRest : Nat → List Char → Option (List Json × List Char)
  | 0, _ => none
  | fuel + 1, l =>
    match skipWs l with
    | [] => none
    | c :: r =>
      if c = ']' then some ([], r)
      else if c = ',' then do
        let (v, r1) ← parseVal fuel r
        let (vs, r2) ← parseArrRest fuel r1
        some (v :: vs, r2)
      else none

/-- Read the continuation of an object: either the closing brace or a
comma followed by a further member. -/
def parseObjRest : Nat → List Char → Option (List (List Char × Json) × List Char)
  | 0, _ => none
  | fuel + 1, l =>
    match skipWs l with
    | [] => none
    | c :: r =>
      if c = rbrace then some ([], r)
      else if c = ',' then
        match skipWs r with
        | [] => none
        | c1 :: r1 =>
          if c1 = '"' then do
            let (k, r2) ← parseStrBody r1
            match skipWs r2 with
            | [] => none
            | c2 :: r3 =>
              if c2 = ':' then do
                let (v, r4) ← parseVal fuel r3
                let (kvs, r5) ← parseObjRest fuel r4
                some ((k, v) :: kvs, r5)
              else none
          else none
      else none

end

/-- Whole-input JSON parsing, modelling `JSON.parse`: one value with
nothing but whitespace around it, otherwise failure (the JavaScript
function throws a `SyntaxError`, modelled as `none`). -/
def Json.parse (s : String) : Option Json :=
  match parseVal (s.data.length + 1) s.data with
  | some (v, rest) => if skipWs rest = [] then some v else none
  | none => none

/-- Look up a member of a JSON object by key (first occurrence), the
model of JavaScript property access on a parsed document. -/
def Json.getObjVal : Json → List Char → Option Json
  | .obj members, k => (members.find? (fun kv => kv.1 = k)).map (·.2)
  | _, _ => none

/-- Extract a string payload. -/
def Json.asStr : Json → Option (List Char)
  | .str s => some s
  | _ => none

/-- Extract an array payload. -/
def Json.asArr : Json → Option (List Json)
  | .arr l => some l
  | _ => none

theorem skipWs_cons_not (c : Char) (l : List Char) (h : isJsonWs c = false) :
    skipWs (c :: l) = c :: l := by
  simp [skipWs, List.dropWhile, h]

theorem skipWs_cons_ws (c : Char) (l : List Char) (h : isJsonWs c = true) :
    skipWs (c :: l) = skipWs l := by
  simp [skipWs, List.dropWhile, h]

theorem skipWs_replicate_space (n : Nat) (l : List Char) :
    skipWs (List.replicate n ' ' ++ l) = skipWs l := by
  induction n with
  | zero => simp
  | succ k ih =>
    rw [List.replicate_succ, List.cons_append, skipWs_cons_ws]
    · exact ih
    · decide

theorem skipWs_nlInd (d : Nat) (l : List Char) : skipWs (nlInd d ++ l) = skipWs l := by
  rw [nlInd, List.cons_append, skipWs_cons_ws, skipWs_replicate_space]
  decide

theorem parseVal_congr (f : Nat) (l1 l2 : List Char) (h : skipWs l1 = skipWs l2) :
    parseVal f l1 = parseVal f l2 := by
  cases f with
  | zero => rfl
  | succ k => rw [parseVal, parseVal, h]

theorem parseArrRest_congr (f : Nat) (l1 l2 : List Char) (h : skipWs l1 = skipWs l2) :
    parseArrRest f l1 = parseArrRest f l2 := by
  cases f with
  | zero => rfl
  | succ k => rw [parseArrRest, parseArrRest, h]

theorem parseObjRest_congr (f : Nat) (l1 l2 : List Char) (h : skipWs l1 = skipWs l2) :
    parseObjRest f l1 = parseObjRest f l2 := by
  cases f with
  | zero => rfl
  | succ k => rw [parseObjRest, parseObjRest, h]

/-- Value of a least-significant-digit-first character list. -/
def valRev : List Char → Nat
  | [] => 0
  | c :: cs => (c.toNat - 48) + 10 * valRev cs

theorem digitChar_facts : ∀ m, m < 10 →
    (Nat.digitChar m).isDigit = true ∧ (Nat.digitChar m).toNat - 48 = m := by decide

theorem natDigitsRev_image (n : Nat) : ∀ c ∈ natDigitsRev n, ∃ m, m < 10 ∧ c = Nat.digitChar m := by
  induction n using Nat.strong_induction_on with
  | _ n ih =>
    rw [natDigitsRev]
    split
    · intro c hc
      simp only [List.mem_singleton] at hc
      exact ⟨n, by omega, hc⟩
    · intro c hc
      rcases List.mem_cons.mp hc with h | h
      · exact ⟨n % 10, by omega, h⟩
      · exact ih (n / 10) (Nat.div_lt_self (by omega) (by omega)) c h

theorem natDigitsRev_ne_nil (n : Nat) : natDigitsRev n ≠ [] := by
  rw [natDigitsRev]; split <;> simp

theorem valRev_natDigitsRev (n : Nat) : valRev (natDigitsRev n) = n := by
  induction n using Nat.strong_induction_on with
  | _ n ih =>
    rw [natDigitsRev]
    split
    · rename_i h
      simp [valRev, (digitChar_facts n h).2]
    · rename_i h
      rw [valRev, (digitChar_facts (n % 10) (by omega)).2,
        ih (n / 10) (Nat.div_lt_self (by omega) (by omega))]
      omega

theorem foldl_reverse_val (ds : List Char) (acc : Nat) :
    List.foldl (fun a c => a * 10 + (c.toNat - 48)) acc ds.reverse =
      acc * 10 ^ ds.length + valRev ds := by
  induction ds generalizing acc with
  | nil => simp [valRev]
  | cons c cs ih =>
    rw [List.reverse_cons, List.foldl_append, ih]
    simp only [List.foldl_cons, List.foldl_nil, valRev, List.length_cons]
    ring

/-- The input does not begin with a decimal digit (so a greedy digit read
stops exactly at its front). -/
def notDigitStart : List Char → Prop
  | [] => True
  | c :: _ => c.isDigit = false

theorem parseDigits_append (ds : List Char) (acc : Nat) (rest : List Char)
    (hds : ∀ c ∈ ds, c.isDigit = true) (hrest : notDigitStart rest) :
    parseDigits acc (ds ++ rest) =
      (List.foldl (fun a c => a * 10 + (c.toNat - 48)) acc ds, rest) := by
  induction ds generalizing acc with
  | nil =>
    cases rest with
    | nil => rfl
    | cons c r =>
      have : c.isDigit = false := hrest
      simp [parseDigits, this]
  | cons c cs ih =>
    have hc : c.isDigit = true := hds c (List.mem_cons_self c cs)
    rw [List.cons_append, parseDigits, if_pos hc]
    exact ih _ (fun x hx => hds x (List.mem_cons_of_mem c hx))

theorem natChars_digits (n : Nat) : ∀ c ∈ natChars n, c.isDigit = true := by
  intro c hc
  rw [natChars, List.mem_reverse] at hc
  obtain ⟨m, hm, rfl⟩ := natDigitsRev_image n c hc
  exact (digitChar_facts m hm).1

theorem natChars_ne_nil (n : Nat) : natChars n ≠ [] := by
  rw [natChars]
  simpa using natDigitsRev_ne_nil n

theorem foldl_natChars (n : Nat) :
    List.foldl (fun a c => a * 10 + (c.toNat - 48)) 0 (natChars n) = n := by
  rw [natChars, foldl_reverse_val, valRev_natDigitsRev]; omega

theorem parseNum_natChars (n : Nat) (rest : List Char) (hrest : notDigitStart rest) :
    parseNum (natChars n ++ rest) = some ((n : Int), rest) := by
  obtain ⟨c, t, hct⟩ : ∃ c t, natChars n = c :: t := by
    cases h : natChars n with
    | nil => exact absurd h (natChars_ne_nil n)
    | cons c t => exact ⟨c, t, rfl⟩
  have hdigs := natChars_digits n
  rw [hct] at hdigs ⊢
  have hc : c.isDigit = true := hdigs c (List.mem_cons_self c t)
  have hcm : c ≠ '-' := by
    intro h
    rw [h] at hc
    exact absurd hc (by decide)
  rw [List.cons_append]; simp only [parseNum]; rw [if_neg hcm, if_pos hc,
    parseDigits_append t (c.toNat - 48) rest (fun x hx => hdigs x (List.mem_cons_of_mem c hx)) hrest]
  have : List.foldl (fun a c => a * 10 + (c.toNat - 48)) (c.toNat - 48) t = n := by
    have h0 := foldl_natChars n
    rw [hct] at h0
    simpa using h0
  simp [this]

theorem parseNum_intChars (n : Int) (rest : List Char) (hrest : notDigitStart rest) :
    parseNum (intChars n ++ rest) = some (n, rest) := by
  rw [intChars]
  split
  · rename_i hneg
    obtain ⟨c, t, hct⟩ : ∃ c t, natChars n.natAbs = c :: t := by
      cases h : natChars n.natAbs with
      | nil => exact absurd h (natChars_ne_nil _)
      | cons c t => exact ⟨c, t, rfl⟩
    have hc : c.isDigit = true := by
      have := natChars_digits n.natAbs
      rw [hct] at this
      exact this c (List.mem_cons_self c t)
    rw [List.cons_append, hct, List.cons_append]
    simp only [parseNum, if_pos hc]
    have hfold : List.foldl (fun a c => a * 10 + (c.toNat - 48)) (c.toNat - 48) t = n.natAbs := by
      have h0 := foldl_natChars n.natAbs
      rw [hct] at h0
      simpa using h0
    rw [parseDigits_append t (c.toNat - 48) rest
      (fun x hx => by
        have := natChars_digits n.natAbs
        rw [hct] at this
        exact this x (List.mem_cons_of_mem c hx)) hrest]
    rw [hfold]
    have habs : -((n.natAbs : Int)) = n := by omega
    rw [habs]
    simp
  · rename_i hpos
    have := parseNum_natChars n.natAbs rest hrest
    rw [this]
    congr 2
    omega

theorem hexVal_hexDigitCh : ∀ n, n < 16 → hexVal (hexDigitCh n) = some n := by decide

theorem parseStrBody_esc (s rest : List Char) :
    parseStrBody (escList s ++ '"' :: rest) = some (s, rest) := by
  induction s with
  | nil =>
    rw [escList, List.nil_append, parseStrBody.eq_def]
    simp
  | cons c cs ih =>
    rw [escList, List.append_assoc, escChar]
    split_ifs with h1 h2 h3 h4 h5 h6 h7 h8
    · subst h1; rw [List.cons_append, List.cons_append, List.nil_append,
        parseStrBody.eq_def]; simp [unescCh, ih]
    · subst h2; rw [List.cons_append, List.cons_append, List.nil_append,
        parseStrBody.eq_def]; simp [unescCh, ih]
    · subst h3; rw [List.cons_append, List.cons_append, List.nil_append,
        parseStrBody.eq_def]; simp [unescCh, ih]
    · subst h4; rw [List.cons_append, List.cons_append, List.nil_append,
        parseStrBody.eq_def]; simp [unescCh, ih]
    · subst h5; rw [List.cons_append, List.cons_append, List.nil_append,
        parseStrBody.eq_def]; simp [unescCh, ih]
    · subst h6; rw [List.cons_append, List.cons_append, List.nil_append,
        parseStrBody.eq_def]; simp [unescCh, ih]
    · subst h7; rw [List.cons_append, List.cons_append, List.nil_append,
        parseStrBody.eq_def]; simp [unescCh, ih]
    · have hdiv : c.toNat / 16 < 16 := by omega
      have hmod : c.toNat % 16 < 16 := by omega
      simp only [List.cons_append, List.nil_append]
      rw [parseStrBody.eq_def]
      simp only [List.cons_append, reduceIte, reduceCtorEq]
      have hzero : hexVal '0' = some 0 := by decide
      rw [hexVal_hexDigitCh _ hdiv, hexVal_hexDigitCh _ hmod, hzero]
      dsimp only
      rw [if_neg (by decide : ¬ (('\\' : Char) = '"'))]
      have hcode : ((0 * 16 + 0) * 16 + c.toNat / 16) * 16 + c.toNat % 16 = c.toNat := by omega
      rw [hcode, if_pos (by omega), Char.ofNat_toNat, ih]
      rfl
    · simp only [List.cons_append, List.nil_append]
      rw [parseStrBody.eq_def]
      simp only []
      rw [if_neg h1, if_neg h2, if_neg (by omega : ¬ c.toNat < 32), ih]
      rfl

theorem parseVal_at_null (f : Nat) (l T : List Char) (h : skipWs l = 'n' :: 'u' :: 'l' :: 'l' :: T) :
    parseVal (f + 1) l = some (.null, T) := by
  simp only [parseVal, h]
  rfl

theorem parseVal_at_true (f : Nat) (l T : List Char) (h : skipWs l = 't' :: 'r' :: 'u' :: 'e' :: T) :
    parseVal (f + 1) l = some (.bool true, T) := by
  simp only [parseVal, h]
  rfl

theorem parseVal_at_false (f : Nat) (l T : List Char)
    (h : skipWs l = 'f' :: 'a' :: 'l' :: 's' :: 'e' :: T) :
    parseVal (f + 1) l = some (.bool false, T) := by
  simp only [parseVal, h]
  rfl

theorem parseVal_at_quote (f : Nat) (l T : List Char) (h : skipWs l = '"' :: T) :
    parseVal (f + 1) l = (fun p => (Json.str p.1, p.2)) <$> parseStrBody T := by
  simp only [parseVal, h]
  rfl

theorem parseVal_at_lbracket (f : Nat) (l T : List Char) (h : skipWs l = '[' :: T) :
    parseVal (f + 1) l =
      (match skipWs T with
      | [] => none
      | c1 :: r1 =>
        if c1 = ']' then some (.arr [], r1)
        else do
          let p1 ← parseVal f (c1 :: r1)
          let p2 ← parseArrRest f p1.2
          some (.arr (p1.1 :: p2.1), p2.2)) := by
  simp only [parseVal, h]
  rfl

theorem parseVal_at_lbrace (f : Nat) (l T : List Char) (h : skipWs l = lbrace :: T) :
    parseVal (f + 1) l =
      (match skipWs T with
      | [] => none
      | c1 :: r1 =>
        if c1 = rbrace then some (.obj [], r1)
        else if c1 = '"' then do
          let pk ← parseStrBody r1
          match skipWs pk.2 with
          | [] => none
          | c2 :: r3 =>
            if c2 = ':' then do
              let pv ← parseVal f r3
              let pm ← parseObjRest f pv.2
              some (.obj ((pk.1, pv.1) :: pm.1), pm.2)
            else none
        else none) := by
  simp only [parseVal, h]
  rfl

theorem parseVal_at_num (f : Nat) (l T : List Char) (c : Char) (h : skipWs l = c :: T)
    (h1 : c ≠ 'n') (h2 : c ≠ 't') (h3 : c ≠ 'f') (h4 : c ≠ '"') (h5 : c ≠ '[')
    (h6 : c ≠ lbrace) :
    parseVal (f + 1) l = (fun p => (Json.num p.1, p.2)) <$> parseNum (c :: T) := by
  simp only [parseVal, h, if_neg h1, if_neg h2, if_neg h3, if_neg h4, if_neg h5, if_neg h6]

theorem parseArrRest_at_close (f : Nat) (l T : List Char) (h : skipWs l = ']' :: T) :
    parseArrRest (f + 1) l = some ([], T) := by
  simp only [parseArrRest, h]
  rfl

theorem parseArrRest_at_comma (f : Nat) (l T : List Char) (h : skipWs l = ',' :: T) :
    parseArrRest (f + 1) l = (do
      let p1 ← parseVal f T
      let p2 ← parseArrRest f p1.2
      some (p1.1 :: p2.1, p2.2)) := by
  simp only [parseArrRest, h]
  rfl

theorem parseObjRest_at_close (f : Nat) (l T : List Char) (h : skipWs l = rbrace :: T) :
    parseObjRest (f + 1) l = some ([], T) := by
  simp only [parseObjRest, h]
  simp

theorem parseObjRest_at_comma (f : Nat) (l T : List Char) (h : skipWs l = ',' :: T) :
    parseObjRest (f + 1) l =
      (match skipWs T with
      | [] => none
      | c1 :: r1 =>
        if c1 = '"' then do
          let pk ← parseStrBody r1
          match skipWs pk.2 with
          | [] => none
          | c2 :: r3 =>
            if c2 = ':' then do
              let pv ← parseVal f r3
              let pm ← parseObjRest f pv.2
              some ((pk.1, pv.1) :: pm.1, pm.2)
            else none
        else none) := by
  simp only [parseObjRest, h]
  simp
  intro hx
  exact absurd hx (by decide)

mutual

/-- Fuel sufficient for `parseVal` to read back the serialization of `v`. -/
def jfuel : Json → Nat
  | .null => 1
  | .bool _ => 1
  | .num _ => 1
  | .str _ => 1
  | .arr [] => 1
  | .arr (x :: xs) => 1 + max (jfuel x) (afuel xs)
  | .obj [] => 1
  | .obj (kv :: kvs) => 1 + max (jfuel kv.2) (ofuel kvs)

/-- Fuel sufficient for `parseArrRest` over serialized trailing elements. -/
def afuel : List Json → Nat
  | [] => 1
  | x :: xs => 1 + max (jfuel x) (afuel xs)

/-- Fuel sufficient for `parseObjRest` over serialized trailing members. -/
def ofuel : List (List Char × Json) → Nat
  | [] => 1
  | kv :: kvs => 1 + max (jfuel kv.2) (ofuel kvs)

end

theorem digitChar_head_facts : ∀ m, m < 10 →
    isJsonWs (Nat.digitChar m) = false ∧ Nat.digitChar m ≠ ']' ∧
    Nat.digitChar m ≠ rbrace ∧ Nat.digitChar m ≠ ',' ∧ Nat.digitChar m ≠ 'n' ∧
    Nat.digitChar m ≠ 't' ∧ Nat.digitChar m ≠ 'f' ∧ Nat.digitChar m ≠ '"' ∧
    Nat.digitChar m ≠ '[' ∧ Nat.digitChar m ≠ lbrace := by decide

/-- Every serialized JSON value begins with a character that is not
whitespace and not one of the structural continuation characters. -/
theorem stringify_head (d : Nat) (v : Json) :
    ∃ c t, stringifyVal d v = c :: t ∧ isJsonWs c = false ∧ c ≠ ']' ∧ c ≠ rbrace ∧ c ≠ ',' := by
  cases v with
  | null =>
    simp only [stringifyVal]
    exact ⟨'n', _, rfl, by decide, by decide, by decide, by decide⟩
  | bool b =>
    cases b with
    | true =>
      simp only [stringifyVal]
      exact ⟨'t', _, rfl, by decide, by decide, by decide, by decide⟩
    | false =>
      simp only [stringifyVal]
      exact ⟨'f', _, rfl, by decide, by decide, by decide, by decide⟩
  | num n =>
    simp only [stringifyVal, intChars]
    by_cases hn : n < 0
    · rw [if_pos hn]
      exact ⟨'-', _, rfl, by decide, by decide, by decide, by decide⟩
    · rw [if_neg hn]
      obtain ⟨c, t, hct⟩ : ∃ c t, natChars n.natAbs = c :: t := by
        cases h : natChars n.natAbs with
        | nil => exact absurd h (natChars_ne_nil _)
        | cons c t => exact ⟨c, t, rfl⟩
      have hmem : c ∈ natDigitsRev n.natAbs := by
        rw [← List.mem_reverse]
        rw [natChars] at hct
        rw [hct]
        exact List.mem_cons_self c t
      obtain ⟨m, hm, hdm⟩ := natDigitsRev_image _ c hmem
      subst hdm
      obtain ⟨q1, q2, q3, q4, _⟩ := digitChar_head_facts m hm
      rw [hct]
      exact ⟨Nat.digitChar m, t, rfl, q1, q2, q3, q4⟩
  | str s =>
    simp only [stringifyVal, escString]
    exact ⟨'"', _, rfl, by decide, by decide, by decide, by decide⟩
  | arr l =>
    cases l with
    | nil =>
      simp only [stringifyVal]
      exact ⟨'[', _, rfl, by decide, by decide, by decide, by decide⟩
    | cons x xs =>
      simp only [stringifyVal]
      exact ⟨'[', _, rfl, by decide, by decide, by decide, by decide⟩
  | obj l =>
    cases l with
    | nil =>
      simp only [stringifyVal]
      exact ⟨lbrace, _, rfl, by decide, by decide, by decide, by decide⟩
    | cons kv kvs =>
      simp only [stringifyVal]
      exact ⟨lbrace, _, rfl, by decide, by decide, by decide, by decide⟩

theorem jfuel_pos (v : Json) : 1 ≤ jfuel v := by
  cases v with
  | null => simp [jfuel]
  | bool b => simp [jfuel]
  | num n => simp [jfuel]
  | str s => simp [jfuel]
  | arr l => cases l <;> simp [jfuel]
  | obj l => cases l <;> simp [jfuel]

theorem afuel_pos (xs : List Json) : 1 ≤ afuel xs := by
  cases xs <;> simp [afuel]

theorem ofuel_pos (kvs : List (List Char × Json)) : 1 ≤ ofuel kvs := by
  cases kvs <;> simp [ofuel]

theorem notDigitStart_nlInd (d : Nat) (l : List Char) : notDigitStart (nlInd d ++ l) := by
  simp only [nlInd, List.cons_append]
  show (Char.ofNat 10).isDigit = false
  decide

theorem notDigitStart_items (d : Nat) (xs : List Json) (l : List Char)
    (hl : notDigitStart l) : notDigitStart (stringifyItems d xs ++ l) := by
  cases xs with
  | nil => simpa [stringifyItems] using hl
  | cons x xs =>
    simp only [stringifyItems, List.cons_append]
    show (',' : Char).isDigit = false
    decide

theorem notDigitStart_members (d : Nat) (kvs : List (List Char × Json)) (l : List Char)
    (hl : notDigitStart l) : notDigitStart (stringifyMembers d kvs ++ l) := by
  cases kvs with
  | nil => simpa [stringifyMembers] using hl
  | cons kv kvs =>
    simp only [stringifyMembers, List.cons_append]
    show (',' : Char).isDigit = false
    decide

theorem digitChar_more_facts : ∀ m, m < 10 →
    Nat.digitChar m ≠ 'n' ∧ Nat.digitChar m ≠ 't' ∧ Nat.digitChar m ≠ 'f' ∧
    Nat.digitChar m ≠ '"' ∧ Nat.digitChar m ≠ '[' ∧ Nat.digitChar m ≠ lbrace ∧
    isJsonWs (Nat.digitChar m) = false := by decide

theorem intChars_head (m : Int) : ∃ c t, intChars m = c :: t ∧ isJsonWs c = false ∧
    c ≠ 'n' ∧ c ≠ 't' ∧ c ≠ 'f' ∧ c ≠ '"' ∧ c ≠ '[' ∧ c ≠ lbrace := by
  rw [intChars]
  split
  · exact ⟨'-', _, rfl, by decide, by decide, by decide, by decide, by decide, by decide, by decide⟩
  · obtain ⟨c, t, hct⟩ : ∃ c t, natChars m.natAbs = c :: t := by
      cases h : natChars m.natAbs with
      | nil => exact absurd h (natChars_ne_nil _)
      | cons c t => exact ⟨c, t, rfl⟩
    have hmem : c ∈ natDigitsRev m.natAbs := by
      rw [← List.mem_reverse]
      rw [natChars] at hct
      rw [hct]
      exact List.mem_cons_self c t
    obtain ⟨q, hq, hdm⟩ := natDigitsRev_image _ c hmem
    subst hdm
    obtain ⟨q1, q2, q3, q4, q5, q6, q7⟩ := digitChar_more_facts q hq
    exact ⟨Nat.digitChar q, t, hct, q7, q1, q2, q3, q4, q5, q6⟩

set_option maxHeartbeats 1000000 in
theorem parse_stringify_fuel : ∀ fuel : Nat,
    (∀ v d rest, jfuel v ≤ fuel → notDigitStart rest →
      parseVal fuel (stringifyVal d v ++ rest) = some (v, rest))
  ∧ (∀ xs d e rest, afuel xs ≤ fuel →
      parseArrRest fuel (stringifyItems d xs ++ (nlInd e ++ (']' :: rest))) = some (xs, rest))
  ∧ (∀ kvs d e rest, ofuel kvs ≤ fuel →
      parseObjRest fuel (stringifyMembers d kvs ++ (nlInd e ++ (rbrace :: rest))) = some (kvs, rest)) := by
  intro fuel
  induction fuel with
  | zero =>
    refine ⟨fun v d rest hf _ => absurd hf ?_, fun xs d e rest hf => absurd hf ?_,
      fun kvs d e rest hf => absurd hf ?_⟩
    · have := jfuel_pos v; omega
    · have := afuel_pos xs; omega
    · have := ofuel_pos kvs; omega
  | succ n ih =>
    obtain ⟨ihv, iha, iho⟩ := ih
    refine ⟨?_, ?_, ?_⟩
    · intro v d rest hf hrest
      cases v with
      | null =>
        apply parseVal_at_null
        simp only [stringifyVal, List.cons_append, List.nil_append]
        rw [skipWs_cons_not _ _ (by decide)]
      | bool b =>
        cases b with
        | true =>
          apply parseVal_at_true
          simp only [stringifyVal, List.cons_append, List.nil_append]
          rw [skipWs_cons_not _ _ (by decide)]
        | false =>
          apply parseVal_at_false
          simp only [stringifyVal, List.cons_append, List.nil_append]
          rw [skipWs_cons_not _ _ (by decide)]
      | num m =>
        obtain ⟨c, t, hct, hws, h1, h2, h3, h4, h5, h6⟩ := intChars_head m
        have hin : stringifyVal d (.num m) ++ rest = c :: (t ++ rest) := by
          simp only [stringifyVal, hct, List.cons_append]
        rw [hin, parseVal_at_num n _ (t ++ rest) c (skipWs_cons_not _ _ hws) h1 h2 h3 h4 h5 h6]
        have : c :: (t ++ rest) = intChars m ++ rest := by rw [← List.cons_append, ← hct]
        rw [this, parseNum_intChars m rest hrest]
        rfl
      | str s =>
        rw [parseVal_at_quote n _ (escList s ++ ('"' :: rest))]
        · rw [parseStrBody_esc]
          rfl
        · simp only [stringifyVal, escString, List.cons_append, List.append_assoc]
          rw [skipWs_cons_not _ _ (by decide)]
          simp
      | arr l =>
        cases l with
        | nil =>
          rw [parseVal_at_lbracket n _ (']' :: rest)]
          · rw [skipWs_cons_not _ _ (by decide)]
            simp
          · simp only [stringifyVal, List.cons_append, List.nil_append]
            rw [skipWs_cons_not _ _ (by decide)]
        | cons x xs =>
          have hx : jfuel x ≤ n := by simp only [jfuel] at hf; omega
          have hxs : afuel xs ≤ n := by simp only [jfuel] at hf; omega
          obtain ⟨cx, tx, hctx, hwsx, hbrx, _, _⟩ := stringify_head (d+1) x
          have hin : stringifyVal d (.arr (x :: xs)) ++ rest =
              '[' :: (nlInd (d+1) ++ (stringifyVal (d+1) x ++
                (stringifyItems (d+1) xs ++ (nlInd d ++ (']' :: rest))))) := by
            simp only [stringifyVal, List.cons_append, List.nil_append, List.append_assoc]
          rw [hin, parseVal_at_lbracket n _ _ (skipWs_cons_not _ _ (by decide))]
          rw [skipWs_nlInd, hctx, List.cons_append, skipWs_cons_not _ _ hwsx]
          dsimp only
          rw [if_neg hbrx]
          rw [← List.cons_append, ← hctx]
          rw [ihv x (d+1) _ hx
            (notDigitStart_items (d+1) xs _ (notDigitStart_nlInd d (']' :: rest)))]
          dsimp only [Bind.bind, Option.bind]
          rw [iha xs (d+1) d rest hxs]
      | obj l =>
        cases l with
        | nil =>
          rw [parseVal_at_lbrace n _ (rbrace :: rest)]
          · rw [skipWs_cons_not _ _ (by decide)]
            simp
          · simp only [stringifyVal, List.cons_append, List.nil_append]
            rw [skipWs_cons_not _ _ (by decide)]
        | cons kv kvs =>
          obtain ⟨k, v2⟩ := kv
          have hv : jfuel v2 ≤ n := by simp only [jfuel] at hf; omega
          have hkvs : ofuel kvs ≤ n := by simp only [jfuel] at hf; omega
          have hin : stringifyVal d (.obj ((k, v2) :: kvs)) ++ rest =
              lbrace :: (nlInd (d+1) ++ ('"' :: (escList k ++ ('"' :: (':' :: (' ' ::
                (stringifyVal (d+1) v2 ++ (stringifyMembers (d+1) kvs ++
                  (nlInd d ++ (rbrace :: rest)))))))))) := by
            simp only [stringifyVal, escString, List.cons_append, List.nil_append,
              List.append_assoc]
          rw [hin, parseVal_at_lbrace n _ _ (skipWs_cons_not _ _ (by decide))]
          rw [skipWs_nlInd, skipWs_cons_not _ _ (by decide)]
          dsimp only
          rw [if_neg (by decide), if_pos rfl]
          rw [parseStrBody_esc]
          dsimp only [Bind.bind, Option.bind]
          rw [skipWs_cons_not _ _ (by decide)]
          dsimp only
          rw [if_pos rfl]
          rw [parseVal_congr n (' ' :: (stringifyVal (d+1) v2 ++ (stringifyMembers (d+1) kvs ++
            (nlInd d ++ (rbrace :: rest))))) _ (skipWs_cons_ws _ _ (by decide))]
          rw [ihv v2 (d+1) _ hv
            (notDigitStart_members (d+1) kvs _ (notDigitStart_nlInd d (rbrace :: rest)))]
          dsimp only [Bind.bind, Option.bind]
          rw [iho kvs (d+1) d rest hkvs]
    · intro xs d e rest hxs
      cases xs with
      | nil =>
        rw [show stringifyItems d ([] : List Json) ++ (nlInd e ++ (']' :: rest)) =
            nlInd e ++ (']' :: rest) by simp [stringifyItems]]
        apply parseArrRest_at_close
        rw [skipWs_nlInd, skipWs_cons_not _ _ (by decide)]
      | cons x xs2 =>
        have hx : jfuel x ≤ n := by simp only [afuel] at hxs; omega
        have hxs2 : afuel xs2 ≤ n := by simp only [afuel] at hxs; omega
        have hin : stringifyItems d (x :: xs2) ++ (nlInd e ++ (']' :: rest)) =
            ',' :: (nlInd d ++ (stringifyVal d x ++ (stringifyItems d xs2 ++
              (nlInd e ++ (']' :: rest))))) := by
          simp only [stringifyItems, List.cons_append, List.append_assoc]
        rw [hin, parseArrRest_at_comma n _ _ (skipWs_cons_not _ _ (by decide))]
        rw [parseVal_congr n _ _ (skipWs_nlInd d (stringifyVal d x ++ (stringifyItems d xs2 ++
          (nlInd e ++ (']' :: rest)))))]
        rw [ihv x d _ hx (notDigitStart_items d xs2 _ (notDigitStart_nlInd e (']' :: rest)))]
        dsimp only [Bind.bind, Option.bind]
        rw [iha xs2 d e rest hxs2]
    · intro kvs d e rest hkvs
      cases kvs with
      | nil =>
        rw [show stringifyMembers d ([] : List (List Char × Json)) ++
            (nlInd e ++ (rbrace :: rest)) = nlInd e ++ (rbrace :: rest) by
          simp [stringifyMembers]]
        apply parseObjRest_at_close
        rw [skipWs_nlInd, skipWs_cons_not _ _ (by decide)]
      | cons kv kvs2 =>
        obtain ⟨k, v2⟩ := kv
        have hv : jfuel v2 ≤ n := by simp only [ofuel] at hkvs; omega
        have hkvs2 : ofuel kvs2 ≤ n := by simp only [ofuel] at hkvs; omega
        have hin : stringifyMembers d ((k, v2) :: kvs2) ++ (nlInd e ++ (rbrace :: rest)) =
            ',' :: (nlInd d ++ ('"' :: (escList k ++ ('"' :: (':' :: (' ' ::
              (stringifyVal d v2 ++ (stringifyMembers d kvs2 ++
                (nlInd e ++ (rbrace :: rest)))))))))) := by
          simp only [stringifyMembers, escString, List.cons_append, List.nil_append,
            List.append_assoc]
        rw [hin, parseObjRest_at_comma n _ _ (skipWs_cons_not _ _ (by decide))]
        rw [skipWs_nlInd, skipWs_cons_not _ _ (by decide)]
        dsimp only
        rw [if_pos rfl]
        rw [parseStrBody_esc]
        dsimp only [Bind.bind, Option.bind]
        rw [skipWs_cons_not _ _ (by decide)]
        dsimp only
        rw [if_pos rfl]
        rw [parseVal_congr n (' ' :: (stringifyVal d v2 ++ (stringifyMembers d kvs2 ++
          (nlInd e ++ (rbrace :: rest))))) _ (skipWs_cons_ws _ _ (by decide))]
        rw [ihv v2 d _ hv
          (notDigitStart_members d kvs2 _ (notDigitStart_nlInd e (rbrace :: rest)))]
        dsimp only [Bind.bind, Option.bind]
        rw [iho kvs2 d e rest hkvs2]

theorem Json.inductionOn (P : Json → Prop)
    (h1 : P .null) (h2 : ∀ b, P (.bool b)) (h3 : ∀ n, P (.num n)) (h4 : ∀ s, P (.str s))
    (h5 : ∀ l, (∀ x ∈ l, P x) → P (.arr l))
    (h6 : ∀ l, (∀ kv ∈ l, P kv.2) → P (.obj l)) : ∀ v, P v := by
  have key : ∀ n (v : Json), sizeOf v ≤ n → P v := by
    intro n
    induction n with
    | zero =>
      intro v hv
      cases v <;> simp at hv
    | succ n ih =>
      intro v hv
      cases v with
      | null => exact h1
      | bool b => exact h2 b
      | num m => exact h3 m
      | str s => exact h4 s
      | arr l =>
        refine h5 l (fun x hx => ih x ?_)
        have hm := List.sizeOf_lt_of_mem hx
        have hs : sizeOf (Json.arr l) = 1 + sizeOf l := by simp
        omega
      | obj l =>
        refine h6 l (fun kv hkv => ih kv.2 ?_)
        have hm := List.sizeOf_lt_of_mem hkv
        have hs : sizeOf (Json.obj l) = 1 + sizeOf l := by simp
        obtain ⟨k2, v2⟩ := kv
        have hp : sizeOf ((k2, v2) : List Char × Json) = 1 + sizeOf k2 + sizeOf v2 := by simp
        simp only
        omega
  exact fun v => key (sizeOf v) v le_rfl

theorem jfuel_le_length (v : Json) : ∀ d, jfuel v ≤ (stringifyVal d v).length + 1 := by
  induction v using Json.inductionOn with
  | h1 => intro d; simp [jfuel]
  | h2 b => intro d; simp [jfuel]
  | h3 m => intro d; simp [jfuel]
  | h4 s => intro d; simp [jfuel]
  | h5 l hl =>
    have items_bound : ∀ (xs : List Json), (∀ x ∈ xs, ∀ d2, jfuel x ≤ (stringifyVal d2 x).length + 1) →
        ∀ d2, afuel xs ≤ (stringifyItems d2 xs).length + 1 := by
      intro xs
      induction xs with
      | nil => intro _ d2; simp [afuel, stringifyItems]
      | cons y ys ihy =>
        intro hm d2
        have hy := hm y (List.mem_cons_self y ys) d2
        have hys := ihy (fun x hx => hm x (List.mem_cons_of_mem y hx)) d2
        simp only [afuel, stringifyItems, List.length_cons, List.length_append]
        omega
    cases l with
    | nil => intro d; simp [jfuel, stringifyVal]
    | cons x xs =>
      intro d
      have hx := hl x (List.mem_cons_self x xs) (d + 1)
      have hxs := items_bound xs (fun y hy => hl y (List.mem_cons_of_mem x hy)) (d + 1)
      simp only [jfuel, stringifyVal, List.length_cons, List.length_append]
      omega
  | h6 l hl =>
    have members_bound : ∀ (kvs : List (List Char × Json)),
        (∀ kv ∈ kvs, ∀ d2, jfuel kv.2 ≤ (stringifyVal d2 kv.2).length + 1) →
        ∀ d2, ofuel kvs ≤ (stringifyMembers d2 kvs).length + 1 := by
      intro kvs
      induction kvs with
      | nil => intro _ d2; simp [ofuel, stringifyMembers]
      | cons kv kvs2 ihkv =>
        intro hm d2
        have hy := hm kv (List.mem_cons_self kv kvs2) d2
        have hys := ihkv (fun x hx => hm x (List.mem_cons_of_mem kv hx)) d2
        simp only [ofuel, stringifyMembers, List.length_cons, List.length_append]
        omega
    cases l with
    | nil => intro d; simp [jfuel, stringifyVal]
    | cons kv kvs =>
      intro d
      have hx := hl kv (List.mem_cons_self kv kvs) (d + 1)
      have hxs := members_bound kvs (fun y hy => hl y (List.mem_cons_of_mem kv hy)) (d + 1)
      simp only [jfuel, stringifyVal, List.length_cons, List.length_append]
      omega

/-- Round trip of the JSON layer: every document the client serializes
with `JSON.stringify(·, null, 2)` is read back unchanged by `JSON.parse`. -/
theorem Json.parse_stringifyPretty (v : Json) :
    Json.parse (Json.stringifyPretty v) = some v := by
  rw [Json.parse, Json.stringifyPretty]
  have hdata : (String.mk (stringifyVal 0 v)).data = stringifyVal 0 v := rfl
  rw [hdata]
  have hfuel : jfuel v ≤ (stringifyVal 0 v).length + 1 := jfuel_le_length v 0
  have hv := (parse_stringify_fuel ((stringifyVal 0 v).length + 1)).1 v 0 [] hfuel trivial
  rw [List.append_nil] at hv
  rw [hv]
  simp [skipWs]

/-- Message roles, the `role` union type of `ChatMessage` in `api.ts`. -/
inductive Role where
  | system : Role
  | user : Role
  | assistant : Role
  | tool : Role
deriving DecidableEq, Repr

/-- The JavaScript string for a role. -/
def roleToChars : Role → List Char
  | .system => "system".data
  | .user => "user".data
  | .assistant => "assistant".data
  | .tool => "tool".data

/-- Read a role string back (the typed view of deserialized data). -/
def roleOfChars (s : List Char) : Option Role :=
  if s = "system".data then some .system
  else if s = "user".data then some .user
  else if s = "assistant".data then some .assistant
  else if s = "tool".data then some .tool
  else none

/-- A model-requested tool call (`ToolCall` in `tools.ts`); the constant
discriminator field `type: 'function'` is implicit in the type. -/
structure ToolCall where
  id : String
  name : String
  arguments : String
deriving DecidableEq, Repr

/-- One turn of the conversation (`ChatMessage` in `api.ts`).  The
`tool_calls` field is typed `any[]` in the source; the values the client
ever stores there are `ToolCall`s. -/
structure ChatMessage where
  role : Role
  content : String
  tool_calls : Option (List ToolCall) := none
  tool_call_id : Option String := none
deriving DecidableEq, Repr

/-- JSON form of a tool call, as `JSON.stringify` lays out the object. -/
def toolCallToJson (tc : ToolCall) : Json :=
  .obj [("id".data, .str tc.id.data), ("type".data, .str "function".data),
    ("function".data, .obj [("name".data, .str tc.name.data),
      ("arguments".data, .str tc.arguments.data)])]

/-- JSON form of a message; `undefined` optional fields are omitted by
`JSON.stringify`, hence the conditional members. -/
def messageToJson (m : ChatMessage) : Json :=
  .obj ([("role".data, .str (roleToChars m.role)), ("content".data, .str m.content.data)]
    ++ (match m.tool_calls with
        | some tcs => [("tool_calls".data, Json.arr (tcs.map toolCallToJson))]
        | none => [])
    ++ (match m.tool_call_id with
        | some i => [("tool_call_id".data, Json.str i.data)]
        | none => []))

/-- Typed reading of a deserialized tool call. -/
def toolCallOfJson (j : Json) : Option ToolCall := do
  let i ← (j.getObjVal "id".data).bind Json.asStr
  let fn ← j.getObjVal "function".data
  let nm ← (fn.getObjVal "name".data).bind Json.asStr
  let args ← (fn.getObjVal "arguments".data).bind Json.asStr
  some ⟨String.mk i, String.mk nm, String.mk args⟩

/-- Decode the optional `tool_calls` member: an absent member stays
`none`; a present member must be an array of tool calls. -/
def toolCallsOfJson : Option Json → Option (Option (List ToolCall))
  | none => some none
  | some tj => do
    let elems ← tj.asArr
    let tcs ← elems.mapM toolCallOfJson
    some (some tcs)

/-- Decode the optional `tool_call_id` member. -/
def toolCallIdOfJson : Option Json → Option (Option String)
  | none => some none
  | some ij => (ij.asStr).map (fun s => some (String.mk s))

/-- Typed reading of a deserialized message (the shape `loadSession`
assigns into the `ChatMessage[]`-typed `messages` field). -/
def messageOfJson (j : Json) : Option ChatMessage := do
  let r ← (j.getObjVal "role".data).bind Json.asStr
  let role ← roleOfChars r
  let content ← (j.getObjVal "content".data).bind Json.asStr
  let tcs ← toolCallsOfJson (j.getObjVal "tool_calls".data)
  let tcid ← toolCallIdOfJson (j.getObjVal "tool_call_id".data)
  some ⟨role, String.mk content, tcs, tcid⟩

theorem roleOfChars_roleToChars (r : Role) : roleOfChars (roleToChars r) = some r := by
  cases r <;> rfl

theorem toolCallOfJson_toolCallToJson (tc : ToolCall) :
    toolCallOfJson (toolCallToJson tc) = some tc := rfl

theorem mapM_toolCalls (tcs : List ToolCall) :
    (tcs.map toolCallToJson).mapM toolCallOfJson = some tcs := by
  induction tcs with
  | nil => rfl
  | cons t ts ih =>
    rw [List.map_cons, List.mapM_cons, toolCallOfJson_toolCallToJson, ih]
    rfl

theorem toolCallsOfJson_enc (tcs : Option (List ToolCall)) :
    toolCallsOfJson (tcs.map (fun ts => Json.arr (ts.map toolCallToJson))) = some tcs := by
  cases tcs with
  | none => rfl
  | some ts =>
    rw [show toolCallsOfJson ((some ts).map (fun ts => Json.arr (ts.map toolCallToJson))) =
      ((ts.map toolCallToJson).mapM toolCallOfJson).bind (fun l => some (some l)) from rfl]
    rw [mapM_toolCalls]
    rfl

theorem toolCallIdOfJson_enc (tcid : Option String) :
    toolCallIdOfJson (tcid.map (fun i => Json.str i.data)) = some tcid := by
  cases tcid <;> rfl

theorem messageOfJson_messageToJson (m : ChatMessage) :
    messageOfJson (messageToJson m) = some m := by
  obtain ⟨r, c, tcs, tcid⟩ := m
  have hrole : (messageToJson ⟨r, c, tcs, tcid⟩).getObjVal "role".data =
      some (.str (roleToChars r)) := by
    cases tcs <;> cases tcid <;> rfl
  have hcontent : (messageToJson ⟨r, c, tcs, tcid⟩).getObjVal "content".data =
      some (.str c.data) := by
    cases tcs <;> cases tcid <;> rfl
  have htc : (messageToJson ⟨r, c, tcs, tcid⟩).getObjVal "tool_calls".data =
      tcs.map (fun ts => Json.arr (ts.map toolCallToJson)) := by
    cases tcs <;> cases tcid <;> rfl
  have htcid : (messageToJson ⟨r, c, tcs, tcid⟩).getObjVal "tool_call_id".data =
      tcid.map (fun i => Json.str i.data) := by
    cases tcs <;> cases tcid <;> rfl
  simp only [messageOfJson]
  rw [hrole, hcontent, htc, htcid, toolCallsOfJson_enc tcs, toolCallIdOfJson_enc tcid]
  dsimp only [Bind.bind, Option.bind, Json.asStr]
  rw [roleOfChars_roleToChars]

/-- The on-disk history directory, modelled as an association list from
file name to file contents. -/
abbrev FileStore := List (String × String)

/-- Read a file from the history directory. -/
def getFile (store : FileStore) (nm : String) : Option String :=
  (store.find? (fun f => f.1 = nm)).map (fun f => f.2)

/-- Write (create or overwrite) a file, as `fs.writeFile` does. -/
def setFile : FileStore → String → String → FileStore
  | [], nm, content => [(nm, content)]
  | f :: fs, nm, content =>
    if f.1 = nm then (nm, content) :: fs else f :: setFile fs nm content

theorem getFile_setFile (store : FileStore) (nm content : String) :
    getFile (setFile store nm content) nm = some content := by
  induction store with
  | nil => simp [getFile, setFile, List.find?]
  | cons f fs ih =>
    rw [setFile]
    split
    · simp [getFile, List.find?]
    · rename_i hne
      simp only [getFile, List.find?] at ih ⊢
      rw [show (decide (f.1 = nm)) = false by simpa using hne]
      exact ih

/-- The session document `saveSession` serializes:
`{id: sessionId, date: now, messages: messages}` (`conversation.ts`). -/
def sessionToJson (sessionId date : String) (messages : List ChatMessage) : Json :=
  .obj [("id".data, .str sessionId.data), ("date".data, .str date.data),
    ("messages".data, .arr (messages.map messageToJson))]

/-- `ConversationManager.saveSession`: returns immediately when
conversation history is disabled, otherwise writes the session JSON
(pretty-printed with indent 2) to `<sessionId>.json`. -/
def saveSession (historyEnabled : Bool) (sessionId date : String)
    (messages : List ChatMessage) (store : FileStore) : FileStore :=
  if !historyEnabled then store
  else setFile store (sessionId ++ ".json")
    (Json.stringifyPretty (sessionToJson sessionId date messages))

/-- `ConversationManager.loadSession`: reads `<sessionId>.json`, parses
it, and installs `sessionData.messages` and `sessionData.id` as the new
live transcript and session id.  `none` models the thrown
`Failed to load session` error (missing file or bad contents). -/
def loadSession (store : FileStore) (sessionId : String) :
    Option (String × List ChatMessage) := do
  let data ← getFile store (sessionId ++ ".json")
  let j ← Json.parse data
  let msgsJ ← (j.getObjVal "messages".data).bind Json.asArr
  let msgs ← msgsJ.mapM messageOfJson
  let idJ ← (j.getObjVal "id".data).bind Json.asStr
  some (String.mk idJ, msgs)

theorem mapM_messages (msgs : List ChatMessage) :
    (msgs.map messageToJson).mapM messageOfJson = some msgs := by
  induction msgs with
  | nil => rfl
  | cons m ms ih =>
    rw [List.map_cons, List.mapM_cons, messageOfJson_messageToJson, ih]
    rfl

theorem loadSession_saveSession (store : FileStore) (sid date : String)
    (msgs : List ChatMessage) :
    loadSession (saveSession true sid date msgs store) sid = some (sid, msgs) := by
  have hget : getFile (saveSession true sid date msgs store) (sid ++ ".json") =
      some (Json.stringifyPretty (sessionToJson sid date msgs)) := by
    simp only [saveSession, Bool.not_true, Bool.false_eq_true, if_false]
    exact getFile_setFile store _ _
  simp only [loadSession]
  rw [hget]
  dsimp only [Bind.bind, Option.bind]
  rw [Json.parse_stringifyPretty]
  dsimp only [Bind.bind, Option.bind]
  have hm : (sessionToJson sid date msgs).getObjVal "messages".data =
      some (.arr (msgs.map messageToJson)) := rfl
  have hid : (sessionToJson sid date msgs).getObjVal "id".data =
      some (.str sid.data) := rfl
  rw [hm, hid]
  dsimp only [Bind.bind, Option.bind, Json.asArr, Json.asStr]
  rw [mapM_messages]

/-- The JavaScript `\s` character class (also the `trim` whitespace set):
tab through carriage return, space, and the unicode space code points. -/
def isJsWhitespaceCh (c : Char) : Bool :=
  (9 ≤ c.toNat && c.toNat ≤ 13) || c.toNat = 32 || c.toNat = 160 || c.toNat = 5760 ||
  (8192 ≤ c.toNat && c.toNat ≤ 8202) || c.toNat = 8232 || c.toNat = 8233 ||
  c.toNat = 8239 || c.toNat = 8287 || c.toNat = 12288 || c.toNat = 65279

/-- Fuel-indexed worker for `jsSplit` (the fuel only serves structural
recursion; the entry point supplies enough for any input). -/
def jsSplitF : Nat → List Char → List Char → List (List Char)
  | 0, _, l => [l]
  | f + 1, sep, l =>
    match l with
    | [] => [[]]
    | c :: rest =>
      if !sep.isEmpty && sep.isPrefixOf (c :: rest) then
        [] :: jsSplitF f sep ((c :: rest).drop sep.length)
      else
        match jsSplitF f sep rest with
        | [] => [[c]]
        | seg :: segs => (c :: seg) :: segs

/-- JavaScript `String.prototype.split` with a non-empty string
separator. -/
def jsSplit (sep l : List Char) : List (List Char) := jsSplitF (l.length + 1) sep l

/-- JavaScript `Array.prototype.join` with a string separator. -/
def jsJoin (sep : List Char) : List (List Char) → List Char
  | [] => []
  | [x] => x
  | x :: xs => x ++ sep ++ jsJoin sep xs

/-- JavaScript `toLowerCase`, modelled per character. -/
def jsToLower (l : List Char) : List Char := l.map Char.toLower

/-- JavaScript `trim`. -/
def jsTrim (l : List Char) : List Char :=
  ((l.dropWhile isJsWhitespaceCh).reverse.dropWhile isJsWhitespaceCh).reverse

/-- JavaScript `String.prototype.indexOf` restricted to the first
occurrence; `none` models the `-1` result. -/
def firstIdx (hay nee : List Char) : Option Nat :=
  match hay with
  | [] => if nee.isEmpty then some 0 else none
  | _ :: t => if nee.isPrefixOf hay then some 0 else (firstIdx t nee).map (fun i => i + 1)

/-- JavaScript `String.prototype.includes`. -/
def jsIncludes (hay nee : List Char) : Bool := (firstIdx hay nee).isSome

/-- Value of a digit sequence. -/
def digitsVal (l : List Char) : Nat :=
  l.foldl (fun a c => a * 10 + (c.toNat - 48)) 0

/-- Exponent digits after `e`/`E`: an empty digit run leaves the
exponent at zero, as `parseFloat` then stops before the marker. -/
def expDigits (l : List Char) : Int := (digitsVal (l.takeWhile Char.isDigit) : Int)

/-- JavaScript `parseFloat`, modelled exactly over `Rat`: longest valid
decimal-literal prefix, `none` for `NaN`; `Infinity` is also mapped to
`none`, since every use site immediately rejects it with the same range
guard that rejects `NaN`.  (The binary-float rounding of the resulting
value is not modelled; the parsed decimal is kept exact.) -/
def jsParseFloat (s : String) : Option Rat :=
  let l0 := s.data.dropWhile isJsWhitespaceCh
  let sign : Rat := match l0 with
    | '-' :: _ => -1
    | _ => 1
  let l := match l0 with
    | '-' :: t => t
    | '+' :: t => t
    | _ => l0
  if "Infinity".data.isPrefixOf l then none
  else
    let intDigits := l.takeWhile Char.isDigit
    let l2 := l.drop intDigits.length
    let fracDigits := match l2 with
      | '.' :: t => t.takeWhile Char.isDigit
      | _ => []
    let l3 := match l2 with
      | '.' :: t => t.drop fracDigits.length
      | _ => l2
    if intDigits.isEmpty && fracDigits.isEmpty then none
    else
      let mant : Rat := (digitsVal intDigits : Rat) +
        (digitsVal fracDigits : Rat) / ((10 : Rat) ^ fracDigits.length)
      let e : Int := match l3 with
        | c :: t =>
          if c = 'e' || c = 'E' then
            match t with
            | '+' :: t2 => expDigits t2
            | '-' :: t2 => - expDigits t2
            | _ => expDigits t
          else 0
        | [] => 0
      some (sign * mant * (10 : Rat) ^ e)

/-- JavaScript `parseInt` with no radix argument: optional sign, a `0x`
prefix selecting hexadecimal, otherwise decimal digits; `none` models
`NaN`.  (Precision loss of huge values in the double result is not
modelled.) -/
def jsParseInt (s : String) : Option Int :=
  let l0 := s.data.dropWhile isJsWhitespaceCh
  let sign : Int := match l0 with
    | '-' :: _ => -1
    | _ => 1
  let l := match l0 with
    | '-' :: t => t
    | '+' :: t => t
    | _ => l0
  match l with
  | '0' :: 'x' :: t =>
    let hexDigits := t.takeWhile (fun c => (hexVal c).isSome)
    if hexDigits.isEmpty then none
    else some (sign * (hexDigits.foldl (fun a c => a * 16 + ((hexVal c).getD 0)) 0 : Nat))
  | '0' :: 'X' :: t =>
    let hexDigits := t.takeWhile (fun c => (hexVal c).isSome)
    if hexDigits.isEmpty then none
    else some (sign * (hexDigits.foldl (fun a c => a * 16 + ((hexVal c).getD 0)) 0 : Nat))
  | _ =>
    let ds := l.takeWhile Char.isDigit
    if ds.isEmpty then none else some (sign * (digitsVal ds : Int))

/-- One entry of the session listing (`{id, date, messageCount}`). -/
structure SessionSummary where
  id : String
  date : String
  messageCount : Nat
deriving DecidableEq, Repr

/-- Summarize one stored file, modelling the loop body of
`listSessions`: `JSON.parse` failure, or a `messages` member that is not
an array (so that `.length` would throw), is the thrown case `none`.  A
missing `id` or `date` is read as the empty string — JavaScript carries
`undefined` there without throwing, and no stored file takes that shape. -/
def summaryOfFile (data : String) : Option SessionSummary := do
  let j ← Json.parse data
  let msgs ← (j.getObjVal "messages".data).bind Json.asArr
  let i := ((j.getObjVal "id".data).bind Json.asStr).getD []
  let dt := ((j.getObjVal "date".data).bind Json.asStr).getD []
  some ⟨String.mk i, String.mk dt, msgs.length⟩

/-- `ConversationManager.listSessions`: every `.json` file of the
history directory is read and summarized inside a single `try` block, so
one file that fails to parse makes the `catch` return the empty list.
The summaries are sorted by `new Date(date).getTime()` descending; the
runtime's date parsing is abstracted as the `getTime` parameter. -/
def listSessions (getTime : String → Int) (store : FileStore) : List SessionSummary :=
  match (store.filter (fun f => ".json".data.isSuffixOf f.1.data)).mapM
      (fun f => summaryOfFile f.2) with
  | some sessions => sessions.mergeSort (fun a b => getTime b.date ≤ getTime a.date)
  | none => []

/-- `ConversationManager.clear`. -/
def clearMessages (_messages : List ChatMessage) : List ChatMessage := []

/-- `ConversationManager.getLastAssistantMessage`: the content of the
last assistant turn, scanning from the end. -/
def getLastAssistantMessage (msgs : List ChatMessage) : Option String :=
  (msgs.reverse.find? (fun m => m.role = Role.assistant)).map (fun m => m.content)

/-- `InteractiveChat.extractSnippet`: locate the first case-insensitive
match, keep `contextLength` characters of context on each side, add an
ellipsis on each truncated side, and trim. -/
def extractSnippet (content query : List Char) (contextLength : Nat) : List Char :=
  match firstIdx (jsToLower content) (jsToLower query) with
  | none => []
  | some index =>
    let start := index - contextLength
    let stop := min content.length (index + query.length + contextLength)
    let snippet0 := (content.take stop).drop start
    let snippet1 := if 0 < start then "...".data ++ snippet0 else snippet0
    let snippet2 := if stop < content.length then snippet1 ++ "...".data else snippet1
    jsTrim snippet2

/-- Extraction of `parsed.choices?.[0]?.delta?.content` from one parsed
frame: the delta is forwarded to `onChunk` only when it is a non-empty
string (`if (content)`); the completion API only carries string deltas. -/
def frameContent (j : Json) : Option (List Char) := do
  let choices ← (j.getObjVal "choices".data).bind Json.asArr
  let first ← choices.head?
  let delta ← first.getObjVal "delta".data
  let content ← (delta.getObjVal "content".data).bind Json.asStr
  if content.isEmpty then none else some content

/-- Parser state of `streamChatCompletion`: the carry-over buffer, the
chunks delivered to `onChunk` so far (in arrival order), and whether the
`[DONE]` sentinel has resolved the promise. -/
structure SSEState where
  buffer : String
  chunks : List String
  finished : Bool
deriving DecidableEq, Repr

/-- Processing of one complete line inside the `data` handler
(`api.ts` lines 97–114): a `data: ` line carries a JSON frame whose
content delta is forwarded; `data: [DONE]` resolves the promise and the
handler returns, skipping the rest of the burst; malformed JSON is
silently dropped; any other line is ignored. -/
def processLine (st : SSEState) (line : String) : SSEState :=
  if st.finished then st
  else if "data: ".data.isPrefixOf line.data then
    let payload := String.mk (line.data.drop 6)
    if payload = "[DONE]" then { st with finished := true }
    else
      match Json.parse payload with
      | some j =>
        match frameContent j with
        | some content => { st with chunks := st.chunks ++ [String.mk content] }
        | none => st
      | none => st
  else st

/-- One `data` event of `streamChatCompletion` (`api.ts` lines 92–115):
the incoming chunk is appended to the carry-over buffer, the buffer is
split on the **two-character sequence backslash–n** — the source splits
on the string literal `'\\n'`, not on a newline — the last piece is
retained as the new buffer, and every complete piece is processed as a
line. -/
def onData (st : SSEState) (chunk : String) : SSEState :=
  if st.finished then st
  else
    let buffer := st.buffer ++ chunk
    let lines := jsSplit "\\n".data buffer.data
    let newBuffer := String.mk ((lines.getLast?).getD [])
    (lines.dropLast).foldl (fun acc line => processLine acc (String.mk line))
      { st with buffer := newBuffer }

/-- The chunks delivered to the `onChunk` callback over a whole synthetic
stream, delivered as the given sequence of transport chunks.  After the
promise has resolved, later transport chunks no longer influence the
response `sendMessage` assembles (the `await` continuation runs first),
which the `finished` flag captures. -/
def streamCollect (chunks : List String) : List String :=
  (chunks.foldl onData ⟨"", [], false⟩).chunks

/-- Modelled from the spec: the same line handling with the stream split
at actual newlines, which is how §6 frames the transport
("Server-Sent-Events-shaped lines").  Used only to exhibit what the
specified framing would produce. -/
def onDataSpec (st : SSEState) (chunk : String) : SSEState :=
  if st.finished then st
  else
    let buffer := st.buffer ++ chunk
    let lines := jsSplit [Char.ofNat 10] buffer.data
    let newBuffer := String.mk ((lines.getLast?).getD [])
    (lines.dropLast).foldl (fun acc line => processLine acc (String.mk line))
      { st with buffer := newBuffer }

/-- Modelled from the spec: chunk collection under newline framing. -/
def streamCollectSpec (chunks : List String) : List String :=
  (chunks.foldl onDataSpec ⟨"", [], false⟩).chunks

/-- The character class the sanitizer of `evaluateMathExpression` keeps
(`expr.replace(/[^0-9+\-*\/().^\s]/g, '')`): digits, the four operators,
parentheses, dot, caret and whitespace — no letters. -/
def isMathKeep (c : Char) : Bool :=
  c.isDigit || c = '+' || c = '-' || c = '*' || c = '/' || c = '(' || c = ')' ||
  c = '.' || c = '^' || isJsWhitespaceCh c

/-- The sanitizer: every character outside the class is removed. -/
def jsSanitize (expr : String) : String := String.mk (expr.data.filter isMathKeep)

/-- Tokens of the sanitized arithmetic sublanguage. -/
inductive MTok where
  | num (q : Rat)
  | plus : MTok
  | minus : MTok
  | star : MTok
  | slash : MTok
  | caret : MTok
  | lparen : MTok
  | rparen : MTok
deriving DecidableEq, Repr

/-- Fuel-indexed tokenizer for the sanitized character class: decimal
literals (`12`, `12.`, `.5`), single-character operators, whitespace
skipped; a lone dot is a syntax error. -/
def mTokenizeF : Nat → List Char → Option (List MTok)
  | 0, _ => none
  | f + 1, l =>
    match l with
    | [] => some []
    | c :: rest =>
      if isJsWhitespaceCh c then mTokenizeF f rest
      else if c = '+' then (mTokenizeF f rest).map (fun ts => .plus :: ts)
      else if c = '-' then (mTokenizeF f rest).map (fun ts => .minus :: ts)
      else if c = '*' then (mTokenizeF f rest).map (fun ts => .star :: ts)
      else if c = '/' then (mTokenizeF f rest).map (fun ts => .slash :: ts)
      else if c = '^' then (mTokenizeF f rest).map (fun ts => .caret :: ts)
      else if c = '(' then (mTokenizeF f rest).map (fun ts => .lparen :: ts)
      else if c = ')' then (mTokenizeF f rest).map (fun ts => .rparen :: ts)
      else if c.isDigit || c = '.' then
        let intD := (c :: rest).takeWhile Char.isDigit
        let r1 := (c :: rest).drop intD.length
        let fracD := match r1 with
          | '.' :: t => t.takeWhile Char.isDigit
          | _ => []
        let r2 := match r1 with
          | '.' :: t => t.drop fracD.length
          | _ => r1
        if intD.isEmpty && fracD.isEmpty then none
        else (mTokenizeF f r2).map (fun ts =>
          MTok.num ((digitsVal intD : Rat) +
            (digitsVal fracD : Rat) / ((10 : Rat) ^ fracD.length)) :: ts)
      else none

/-- JavaScript `ToInt32`: truncate toward zero, reduce modulo 2^32,
interpret as signed. -/
def jsToInt32 (q : Rat) : Int :=
  let t : Int := if 0 ≤ q then q.floor else -((-q).floor)
  let u : Nat := (t % 4294967296).toNat
  if u < 2147483648 then (u : Int) else (u : Int) - 4294967296

/-- JavaScript `^`: bitwise XOR of the `ToInt32` images (not
exponentiation). -/
def jsXor (a b : Rat) : Rat :=
  let ua := (jsToInt32 a % 4294967296).toNat
  let ub := (jsToInt32 b % 4294967296).toNat
  let x := Nat.xor ua ub
  (((if x < 2147483648 then (x : Int) else (x : Int) - 4294967296) : Int) : Rat)

mutual

/-- Full expressions: additive expressions joined by `^`, which in
JavaScript binds weaker than `+`/`-` (the operators from the sanitized
class between them — shifts, comparisons, `&` — cannot occur). -/
def parseXorE : Nat → List MTok → Option (Rat × List MTok)
  | 0, _ => none
  | f + 1, ts => do
    let p ← parseAdd f ts
    parseXorRest f p.1 p.2

def parseXorRest : Nat → Rat → List MTok → Option (Rat × List MTok)
  | 0, _, _ => none
  | f + 1, v, ts =>
    match ts with
    | .caret :: ts1 => do
      let p ← parseAdd f ts1
      parseXorRest f (jsXor v p.1) p.2
    | _ => some (v, ts)

def parseAdd : Nat → List MTok → Option (Rat × List MTok)
  | 0, _ => none
  | f + 1, ts => do
    let p ← parseMul f ts
    parseAddRest f p.1 p.2

def parseAddRest : Nat → Rat → List MTok → Option (Rat × List MTok)
  | 0, _, _ => none
  | f + 1, v, ts =>
    match ts with
    | .plus :: ts1 => do
      let p ← parseMul f ts1
      parseAddRest f (v + p.1) p.2
    | .minus :: ts1 => do
      let p ← parseMul f ts1
      parseAddRest f (v - p.1) p.2
    | _ => some (v, ts)

def parseMul : Nat → List MTok → Option (Rat × List MTok)
  | 0, _ => none
  | f + 1, ts => do
    let p ← parseUnary f ts
    parseMulRest f p.1 p.2

def parseMulRest : Nat → Rat → List MTok → Option (Rat × List MTok)
  | 0, _, _ => none
  | f + 1, v, ts =>
    match ts with
    | .star :: ts1 => do
      let p ← parseUnary f ts1
      parseMulRest f (v * p.1) p.2
    | .slash :: ts1 => do
      let p ← parseUnary f ts1
      if p.1 = 0 then none
      else parseMulRest f (v / p.1) p.2
    | _ => some (v, ts)

/-- Unary plus and minus.  (JavaScript additionally tokenizes `--`/`++`
as increment operators and rejects them here; repeated signs without
intervening space are accepted by this model — no claim exercises them.
Division by zero is `none`: JavaScript would produce an infinity, which
`Rat` cannot carry; no claim divides by zero.) -/
def parseUnary : Nat → List MTok → Option (Rat × List MTok)
  | 0, _ => none
  | f + 1, ts =>
    match ts with
    | .plus :: ts1 => parseUnary f ts1
    | .minus :: ts1 => (parseUnary f ts1).map (fun p => (-p.1, p.2))
    | _ => parsePrimary f ts

def parsePrimary : Nat → List MTok → Option (Rat × List MTok)
  | 0, _ => none
  | f + 1, ts =>
    match ts with
    | .num q :: ts1 => some (q, ts1)
    | .lparen :: ts1 => do
      let p ← parseXorE f ts1
      match p.2 with
      | .rparen :: ts3 => some (p.1, ts3)
      | _ => none
    | _ => none

end

/-- Evaluation of the sanitized text as the body of
`new Function(..., 'return ' + sanitized)`: the JavaScript expression
grammar reachable from the sanitized character class.  `none` models the
`SyntaxError` thrown while constructing the function (for example for an
empty or ill-formed body). -/
def jsEvalArith (s : String) : Option Rat := do
  let ts ← mTokenizeF (s.data.length + 1) s.data
  match parseXorE (4 * ts.length + 8) ts with
  | some (v, []) => some v
  | _ => none

/-- `ToolManager.evaluateMathExpression`: strip every character outside
the arithmetic class (in particular all letters, so the whitelisted
`math` parameter names — sqrt, pow, sin, … — can never be referenced),
then evaluate the remainder as a JavaScript expression.  `Except.error`
models the thrown `Invalid mathematical expression`. -/
def evaluateMathExpression (expr : String) : Except String Rat :=
  match jsEvalArith (jsSanitize expr) with
  | some v => Except.ok v
  | none => Except.error "Invalid mathematical expression"

/-- A registered tool handler: from parsed JSON arguments to a result
string, `Except.error` modelling a thrown exception. -/
abbrev ToolHandler := Json → Except String String

/-- The tool result turn (`ToolResponse` in `tools.ts`). -/
structure ToolResponse where
  role : String
  content : String
  tool_call_id : String
deriving DecidableEq, Repr

/-- Modelled from the spec: the engine-dependent text of the
`SyntaxError` that `JSON.parse` throws on bad argument text, which the
`catch` interpolates; only its presence after the fixed prefix matters. -/
def jsonSyntaxErrText : String := "SyntaxError: Unexpected token in JSON"

/-- `ToolManager.executeTool`: unknown tool name, argument text that
fails to parse as JSON, and a handler that throws each produce an
ordinary `ToolResponse` carrying `toolCall.id`; the function is total —
dispatch never propagates an exception. -/
def executeTool (handlers : List (String × ToolHandler)) (tc : ToolCall) : ToolResponse :=
  match (handlers.find? (fun h => h.1 = tc.name)).map (fun h => h.2) with
  | none => ⟨"tool", "Error: Unknown tool \"" ++ tc.name ++ "\"", tc.id⟩
  | some handler =>
    match Json.parse tc.arguments with
    | none => ⟨"tool", "Error executing tool: " ++ jsonSyntaxErrText, tc.id⟩
    | some args =>
      match handler args with
      | .ok result => ⟨"tool", result, tc.id⟩
      | .error e => ⟨"tool", "Error executing tool: " ++ e, tc.id⟩

/-- Runtime configuration (the `conf`-backed `Config` store): the fields
the chat engine reads and writes. -/
structure AppConfig where
  model : String
  temperature : Rat
  maxTokens : Int
  theme : String
  conversationHistory : Bool
deriving DecidableEq, Repr

/-- The mutable state of one `InteractiveChat` run: the configuration
store, the live transcript (`ConversationManager.messages`), the current
session id, the history directory, and the REPL running flag. -/
structure ChatState where
  config : AppConfig
  messages : List ChatMessage
  sessionId : String
  store : FileStore
  isRunning : Bool
deriving DecidableEq, Repr

/-- One search hit (`{sessionId, date, matches}` in the source; the
`matches` field is named `matchSnippets` here, `matches` being a Lean
keyword). -/
structure SearchResult where
  sessionId : String
  date : String
  matchSnippets : List String
deriving DecidableEq, Repr

/-- Observable terminal output of one engine step.  Displays that
interpolate a floating-point number are kept structured
(`numInfo`/`numSuccess`), because JavaScript float-to-string rendering
is not modelled; integer interpolations (`intInfo`/`intSuccess`)
likewise carry the value. -/
inductive Display where
  | info (s : String)
  | success (s : String)
  | warning (s : String)
  | error (s : String)
  | numInfo (label : String) (value : Rat)
  | numSuccess (label : String) (value : Rat)
  | intInfo (label : String) (value : Int)
  | intSuccess (label : String) (value : Int)
  | chunk (s : String)
  | banner : Display
  | showHelp : Display
  | searchResults (results : List SearchResult)
  | modelList (models : List String)
  | exported : Display
  | historyList (sessions : List SessionSummary)
deriving DecidableEq, Repr

/-- Outcome of one streaming completion request, as observed through the
`onChunk` callback: normal completion after the given content chunks, or
a transport error after the given partial chunks (which the engine then
discards). -/
inductive StreamResult where
  | ok (chunks : List String)
  | err (partialChunks : List String) (message : String)
deriving DecidableEq, Repr

/-- External collaborators and interactive answers consumed during one
engine step; each field models one awaited interaction of `chat.ts`
(model-list fetch, list prompts, confirm prompts, clipboard, file read,
the streaming request, the clock, and `Date` parsing). -/
structure ChatEnv where
  modelsResult : Except String (List String)
  modelSelection : String
  historySelection : Option String
  searchLoadAnswer : Bool
  searchSelection : String
  exitSaveAnswer : Bool
  clipboardOk : Bool
  fileRead : Option String
  streamResult : StreamResult
  getTime : String → Int
  nowDate : String

/-- `InteractiveChat.sendMessage`: append the user turn; on stream
success append the assistant turn assembled from the concatenated chunks
and auto-save when history is enabled; on a stream error the partial
content is discarded (the local `fullResponse` is dropped), only the
error is reported, and control returns to the prompt loop. -/
def sendMessage (env : ChatEnv) (st : ChatState) (content : String) :
    ChatState × List Display :=
  let st1 := { st with messages := st.messages ++ [ChatMessage.mk Role.user content none none] }
  match env.streamResult with
  | .ok chunks =>
    let fullResponse := String.join chunks
    let st2 := { st1 with
      messages := st1.messages ++ [ChatMessage.mk Role.assistant fullResponse none none] }
    let newStore := saveSession st2.config.conversationHistory st2.sessionId
      env.nowDate st2.messages st2.store
    let st3 :=
      if st2.config.conversationHistory then { st2 with store := newStore }
      else st2
    (st3, chunks.map Display.chunk)
  | .err partialChunks msg =>
    (st1, partialChunks.map Display.chunk ++ [.error ("Failed to get response: " ++ msg)])

/-- The body of the search loop of `searchConversations` for one listed
session: load it into the live conversation (a corrupt session is
skipped by the `catch`, leaving the accumulated state unchanged) and
collect a `role: snippet` line for every turn whose content contains the
query case-insensitively; a session contributes at most its first three
matches. -/
def searchStep (store : FileStore) (query : String)
    (acc : (String × List ChatMessage) × List SearchResult) (session : SessionSummary) :
    (String × List ChatMessage) × List SearchResult :=
  match loadSession store session.id with
  | none => acc
  | some (newId, msgs) =>
    let found := (msgs.filter (fun m =>
        jsIncludes (jsToLower m.content.data) (jsToLower query.data))).map
      (fun m => String.mk (roleToChars m.role) ++ ": " ++
        String.mk (extractSnippet m.content.data query.data 50))
    ((newId, msgs),
      if found.isEmpty then acc.2
      else acc.2 ++ [⟨session.id, session.date, found.take 3⟩])

/-- `InteractiveChat.searchConversations`: list the store (a single
corrupt file empties the listing — see `listSessions`), return early on
an empty listing, otherwise scan every session by loading it into the
live conversation, clear the conversation, display the results, and
optionally load a session the user selects. -/
def searchConversations (env : ChatEnv) (st : ChatState) (query : String) :
    ChatState × List Display :=
  let sessions := listSessions env.getTime st.store
  if sessions.isEmpty then (st, [.info "No conversation history to search"])
  else
    let r := sessions.foldl (searchStep st.store query) ((st.sessionId, st.messages), [])
    let st2 := { st with sessionId := r.1.1, messages := [] }
    let results := r.2
    let pre := [Display.info ("Searching for: \"" ++ query ++ "\"...")]
    if results.isEmpty then (st2, pre ++ [.info "No matches found"])
    else
      let shown := pre ++ [Display.searchResults results]
      if env.searchLoadAnswer then
        match loadSession st2.store env.searchSelection with
        | some (newId, msgs) =>
          ({ st2 with sessionId := newId, messages := msgs },
            shown ++ [.success "Conversation loaded"])
        | none => (st2, shown ++ [.error "Failed to load session"])
      else (st2, shown)

/-- `InteractiveChat.showModels` (the `/model` branch with no argument):
fetch the model list, prompt for a selection from it, and set the
configured model to the choice; a failed fetch reports an error and
changes nothing. -/
def showModels (env : ChatEnv) (st : ChatState) : ChatState × List Display :=
  match env.modelsResult with
  | .error e => (st, [.error ("Failed to fetch models: " ++ e)])
  | .ok ms =>
    ({ st with config := { st.config with model := env.modelSelection } },
      [.modelList ms, .success ("Model changed to: " ++ env.modelSelection)])

/-- `InteractiveChat.showHistory` (`/history`): list the store, prompt
for a session (Cancel modelled as `none`), and load the selection into
the live conversation. -/
def showHistory (env : ChatEnv) (st : ChatState) : ChatState × List Display :=
  let sessions := listSessions env.getTime st.store
  if sessions.isEmpty then (st, [.info "No conversation history found"])
  else
    match env.historySelection with
    | none => (st, [.historyList sessions])
    | some sid =>
      match loadSession st.store sid with
      | some (newId, msgs) =>
        ({ st with sessionId := newId, messages := msgs },
          [.historyList sessions, .success "Conversation loaded"])
      | none => (st, [.historyList sessions, .error "Failed to load session"])

/-- `InteractiveChat.copyLastMessage` (`/copy`). -/
def copyLastMessage (env : ChatEnv) (st : ChatState) : ChatState × List Display :=
  match getLastAssistantMessage st.messages with
  | some _ =>
    if env.clipboardOk then (st, [.success "Last AI response copied to clipboard"])
    else (st, [.error "Failed to copy to clipboard"])
  | none => (st, [.warning "No AI response to copy"])

/-- `InteractiveChat.handleExit` (`/exit`, `/quit`): offer to save a
non-empty transcript, say goodbye, and stop the REPL loop. -/
def handleExit (env : ChatEnv) (st : ChatState) : ChatState × List Display :=
  if st.messages.isEmpty then
    ({ st with isRunning := false }, [.info "Goodbye! 👋"])
  else if env.exitSaveAnswer then
    let newStore := saveSession st.config.conversationHistory st.sessionId env.nowDate
      st.messages st.store
    ({ st with isRunning := false, store := newStore },
      [.success "Conversation saved", .info "Goodbye! 👋"])
  else ({ st with isRunning := false }, [.info "Goodbye! 👋"])

/-- The `/file` branch: a successful read sends the formatted file
content as a user message (the formatting of `formatFileContent` is
carried opaquely in `env.fileRead`); a failed read only reports. -/
def readFileCmd (env : ChatEnv) (st : ChatState) (path : String) :
    ChatState × List Display :=
  match env.fileRead with
  | none => (st, [.error "Failed to read file"])
  | some formatted =>
    let r := sendMessage env st ("Please analyze this file:\n" ++ formatted)
    (r.1, [.info ("File loaded: " ++ path)] ++ r.2)

/-- `InteractiveChat.exportConversation` (`/export`): an empty
transcript only warns; otherwise the conversation is written outside the
session store, modelled as the `exported` display alone. -/
def exportConversation (st : ChatState) : ChatState × List Display :=
  if st.messages.isEmpty then (st, [.warning "No messages to export"])
  else (st, [.exported])

/-- `InteractiveChat.handleCommand`: split the line after the slash on
spaces into the command word and the re-joined argument
(`const [cmd, ...args] = command.slice(1).split(' ')`), lower-case the
command word for dispatch, and branch over the fixed command set; an
unrecognized word produces only a warning (interpolating the original,
non-lower-cased word). -/
def handleCommand (env : ChatEnv) (st : ChatState) (command : String) :
    ChatState × List Display :=
  let parts := jsSplit [' '] (command.data.drop 1)
  let rawCmd := (parts.head?).getD []
  let cmd := jsToLower rawCmd
  let arg := String.mk (jsJoin [' '] (parts.drop 1))
  if cmd = "help".data then (st, [.showHelp])
  else if cmd = "clear".data then
    ({ st with messages := [] }, [.banner, .success "Conversation cleared"])
  else if cmd = "save".data then
    let newStore := saveSession st.config.conversationHistory st.sessionId env.nowDate
      st.messages st.store
    ({ st with store := newStore }, [.success "Conversation saved"])
  else if cmd = "history".data then showHistory env st
  else if cmd = "copy".data then copyLastMessage env st
  else if cmd = "model".data then
    if arg ≠ "" then
      ({ st with config := { st.config with model := arg } },
        [.success ("Model changed to: " ++ arg)])
    else showModels env st
  else if cmd = "system".data then
    if arg ≠ "" then
      ({ st with messages := [ChatMessage.mk Role.system arg none none] },
        [.success "System prompt updated"])
    else (st, [.warning "Please provide a system prompt"])
  else if cmd = "temp".data ∨ cmd = "temperature".data then
    if arg ≠ "" then
      match jsParseFloat arg with
      | some t =>
        if 0 ≤ t ∧ t ≤ 2 then
          ({ st with config := { st.config with temperature := t } },
            [.numSuccess "Temperature set to: " t])
        else (st, [.error "Temperature must be between 0 and 2"])
      | none => (st, [.error "Temperature must be between 0 and 2"])
    else (st, [.numInfo "Current temperature: " st.config.temperature])
  else if cmd = "tokens".data ∨ cmd = "maxtokens".data then
    if arg ≠ "" then
      match jsParseInt arg with
      | some n =>
        if 0 < n then
          ({ st with config := { st.config with maxTokens := n } },
            [.intSuccess "Max tokens set to: " n])
        else (st, [.error "Max tokens must be a positive number"])
      | none => (st, [.error "Max tokens must be a positive number"])
    else (st, [.intInfo "Current max tokens: " st.config.maxTokens])
  else if cmd = "theme".data then
    if arg ≠ "" then
      if arg = "default" ∨ arg = "dark" ∨ arg = "light" ∨ arg = "colorful" then
        ({ st with config := { st.config with theme := arg } },
          [.success ("Theme changed to: " ++ arg)])
      else (st, [.error "Invalid theme. Choose from: default, dark, light, colorful"])
    else (st, [.info ("Current theme: " ++ st.config.theme)])
  else if cmd = "file".data ∨ cmd = "read".data then
    if arg ≠ "" then readFileCmd env st arg
    else (st, [.warning "Please provide a file path to read"])
  else if cmd = "export".data then exportConversation st
  else if cmd = "search".data then
    if arg ≠ "" then searchConversations env st arg
    else (st, [.warning "Please provide a search query"])
  else if cmd = "exit".data ∨ cmd = "quit".data then handleExit env st
  else
    (st, [.warning ("Unknown command: " ++ String.mk rawCmd ++
      ". Type /help for available commands.")])

/-- `InteractiveChat.handleUserInput`: a line starting with `/` is a
command, anything else is sent as a chat message. -/
def handleUserInput (env : ChatEnv) (st : ChatState) (input : String) :
    ChatState × List Display :=
  if "/".data.isPrefixOf input.data then handleCommand env st input
  else sendMessage env st input

theorem jsSplit_cons_not_sep (c : Char) (l : List Char) (h : (c = ' ') = False) :
    jsSplit [' '] (c :: l) =
      (match jsSplit [' '] l with
      | [] => [[c]]
      | seg :: segs => (c :: seg) :: segs) := by
  show jsSplitF (l.length + 1 + 1) [' '] (c :: l) = _
  rw [jsSplitF]
  have hp : ([' '].isPrefixOf (c :: l)) = false := by
    simp [List.isPrefixOf, beq_iff_eq]
    intro hc
    rw [← hc] at h
    simp at h
  simp only [hp, List.isEmpty_cons, Bool.not_false, Bool.and_false, Bool.false_and,
    Bool.and_self, if_neg]
  rfl

theorem jsSplit_cons_sep (l : List Char) :
    jsSplit [' '] (' ' :: l) = [] :: jsSplit [' '] l := by
  show jsSplitF (l.length + 1 + 1) [' '] (' ' :: l) = _
  rw [jsSplitF]
  have hp : ([' '].isPrefixOf (' ' :: l)) = true := by
    simp [List.isPrefixOf]
  simp only [hp, List.isEmpty_cons, Bool.not_false, Bool.true_and, if_pos]
  rfl

theorem jsJoin_cons_cons (c : Char) (s : List Char) (ss : List (List Char)) :
    jsJoin [' '] ((c :: s) :: ss) = c :: jsJoin [' '] (s :: ss) := by
  cases ss with
  | nil => rfl
  | cons t ts => rfl

theorem jsJoin_jsSplit (l : List Char) : jsJoin [' '] (jsSplit [' '] l) = l := by
  induction l with
  | nil => rfl
  | cons c rest ih =>
    by_cases hc : c = ' '
    · subst hc
      rw [jsSplit_cons_sep]
      cases hsp : jsSplit [' '] rest with
      | nil =>
        rw [hsp] at ih
        simp only [jsJoin] at ih
        subst ih
        simp [jsSplit, jsSplitF] at hsp
      | cons s ss =>
        rw [hsp] at ih
        show ([] : List Char) ++ [' '] ++ jsJoin [' '] (s :: ss) = ' ' :: rest
        rw [ih]
        rfl
    · rw [jsSplit_cons_not_sep c rest (by simp [hc])]
      cases hsp : jsSplit [' '] rest with
      | nil =>
        rw [hsp] at ih
        simp only [jsJoin] at ih
        subst ih
        simp [jsSplit, jsSplitF] at hsp
      | cons s ss =>
        rw [hsp] at ih
        rw [jsJoin_cons_cons, ih]

/-- Dispatch of `/temp <arg>` (non-empty argument) reduced to the
temperature branch of `handleCommand`. -/
theorem handleCommand_temp_arg (env : ChatEnv) (st : ChatState) (arg : String) (h : arg ≠ "") :
    handleCommand env st ("/temp " ++ arg) =
      (match jsParseFloat arg with
      | some t =>
        if 0 ≤ t ∧ t ≤ 2 then
          ({ st with config := { st.config with temperature := t } },
            [.numSuccess "Temperature set to: " t])
        else (st, [.error "Temperature must be between 0 and 2"])
      | none => (st, [.error "Temperature must be between 0 and 2"])) := by
  have hdrop : ("/temp " ++ arg).data.drop 1 = 't' :: 'e' :: 'm' :: 'p' :: ' ' :: arg.data := rfl
  have hsplit : jsSplit [' '] ('t' :: 'e' :: 'm' :: 'p' :: ' ' :: arg.data) =
      "temp".data :: jsSplit [' '] arg.data := by
    rw [jsSplit_cons_not_sep _ _ (by simp), jsSplit_cons_not_sep _ _ (by simp),
      jsSplit_cons_not_sep _ _ (by simp), jsSplit_cons_not_sep _ _ (by simp),
      jsSplit_cons_sep]
  simp only [handleCommand, hdrop, hsplit]
  have hcmd : jsToLower (((['t', 'e', 'm', 'p'] : List Char) ::
      jsSplit [' '] arg.data).head?.getD []) = ['t', 'e', 'm', 'p'] := by
    show jsToLower ['t', 'e', 'm', 'p'] = ['t', 'e', 'm', 'p']
    decide
  rw [hcmd]
  have harg : (String.mk (jsJoin [' '] (List.drop 1 ((['t', 'e', 'm', 'p'] : List Char) ::
      jsSplit [' '] arg.data)))) = arg := by
    show String.mk (jsJoin [' '] (jsSplit [' '] arg.data)) = arg
    rw [jsJoin_jsSplit]
  rw [harg]
  rw [if_neg (by decide : ¬ ((['t', 'e', 'm', 'p'] : List Char) = ['h', 'e', 'l', 'p']))]
  rw [if_neg (by decide : ¬ ((['t', 'e', 'm', 'p'] : List Char) = ['c', 'l', 'e', 'a', 'r']))]
  rw [if_neg (by decide : ¬ ((['t', 'e', 'm', 'p'] : List Char) = ['s', 'a', 'v', 'e']))]
  rw [if_neg (by decide : ¬ ((['t', 'e', 'm', 'p'] : List Char) = ['h', 'i', 's', 't', 'o', 'r', 'y']))]
  rw [if_neg (by decide : ¬ ((['t', 'e', 'm', 'p'] : List Char) = ['c', 'o', 'p', 'y']))]
  rw [if_neg (by decide : ¬ ((['t', 'e', 'm', 'p'] : List Char) = ['m', 'o', 'd', 'e', 'l']))]
  rw [if_neg (by decide : ¬ ((['t', 'e', 'm', 'p'] : List Char) = ['s', 'y', 's', 't', 'e', 'm']))]
  rw [if_pos (Or.inl rfl : (['t', 'e', 'm', 'p'] : List Char) = ['t', 'e', 'm', 'p'] ∨
    (['t', 'e', 'm', 'p'] : List Char) = "temperature".data)]
  rw [if_pos h]

/-- First frame of the synthetic stream of end-to-end scenario B,
followed by a newline, as the transport delivers it. -/
def c1frame1 : String :=
  "data: \x7b\"choices\":[\x7b\"delta\":\x7b\"content\":\"Hel\"\x7d\x7d]\x7d\n"

/-- Second frame, carrying the delta `lo`. -/
def c1frame2 : String :=
  "data: \x7b\"choices\":[\x7b\"delta\":\x7b\"content\":\"lo\"\x7d\x7d]\x7d\n"

/-- The terminating sentinel line. -/
def c1done : String := "data: [DONE]\n"

/-- C1: the streaming parser loses every newline-separated frame: the
source splits the buffer on the literal two-character sequence `\` `n`
(`buffer.split('\\n')` in `api.ts` line 94), so a stream framed by real
newlines is never cut into lines and the chunk callback is never
invoked — the concatenated content is `""`, not `"Hello"`.  Under the
newline framing the specification describes (`onDataSpec`), the same
stream yields exactly `"Hello"`. -/
theorem claim_C1_stream_reassembly :
    String.join (streamCollect [c1frame1, c1frame2, c1done]) = "" ∧
    streamCollect [c1frame1, c1frame2, c1done] = [] ∧
    String.join (streamCollectSpec [c1frame1, c1frame2, c1done]) = "Hello" ∧
    streamCollectSpec [c1frame1, c1frame2, c1done] = ["Hel", "lo"] :=
  ⟨rfl, rfl, rfl, rfl⟩

/-- C2: the calculate tool's evaluator does not implement the advertised
vocabulary: the sanitizer deletes every letter, so `sqrt(16)` — an
example from the tool's own description — becomes `(16)` and evaluates
to `16` rather than `4`, and `sin(pi/2)` becomes `(/2)` and raises
`Invalid mathematical expression` rather than evaluating to `1`. -/
theorem claim_C2_calculator_vocabulary :
    jsSanitize "sqrt(16)" = "(16)" ∧
    evaluateMathExpression "sqrt(16)" = .ok 16 ∧
    (16 : Rat) ≠ 4 ∧
    evaluateMathExpression "sin(pi/2)" = .error "Invalid mathematical expression" := by
  refine ⟨rfl, ?_, by norm_num, rfl⟩
  have h : evaluateMathExpression "sqrt(16)" =
      .ok (((16 : Nat) : Rat) + ((0 : Nat) : Rat) / (10 : Rat) ^ (0 : Nat)) := rfl
  rw [h]
  norm_num

/-- A valid stored session whose only turn contains the letter `x`. -/
def c3sessionA : String :=
  "\x7b\"id\":\"a\",\"date\":\"1\",\"messages\":[\x7b\"role\":\"user\",\"content\":\"box\"\x7d]\x7d"

/-- A second valid stored session also matching the query `x`. -/
def c3sessionB : String :=
  "\x7b\"id\":\"b\",\"date\":\"2\",\"messages\":[\x7b\"role\":\"assistant\",\"content\":\"axe\"\x7d]\x7d"

/-- A history directory with two valid sessions and one file that is not
valid JSON. -/
def c3store : FileStore := [("a.json", c3sessionA), ("b.json", c3sessionB), ("c.json", "not json")]

/-- C3: one corrupt file among three aborts the whole search.  The
single `try` block of `listSessions` turns the `JSON.parse` failure on
`c.json` into an empty listing, so `searchConversations` reports "No
conversation history to search" and returns no matches at all — even
though both other sessions are loadable and contain the query.  (The
`catch` inside the search loop that was meant to skip corrupt sessions
is never reached.) -/
theorem claim_C3_corrupt_session_aborts_search (env : ChatEnv) (cfg : AppConfig)
    (msgs : List ChatMessage) (sid : String) (run : Bool) :
    Json.parse "not json" = none ∧
    listSessions env.getTime c3store = [] ∧
    searchConversations env ⟨cfg, msgs, sid, c3store, run⟩ "x" =
      (⟨cfg, msgs, sid, c3store, run⟩, [.info "No conversation history to search"]) ∧
    loadSession c3store "a" = some ("a", [ChatMessage.mk .user "box" none none]) ∧
    loadSession c3store "b" = some ("b", [ChatMessage.mk .assistant "axe" none none]) ∧
    jsIncludes (jsToLower "box".data) (jsToLower "x".data) = true ∧
    jsIncludes (jsToLower "axe".data) (jsToLower "x".data) = true :=
  ⟨rfl, rfl, rfl, rfl, rfl, rfl, rfl⟩

/-- C4: dispatch is total and always addresses the requesting
invocation: the result carries `tool_call_id = tc.id` and role `tool`
whatever happens; an unregistered name yields the unknown-tool message;
unparseable argument text and a throwing handler each yield an
`Error executing tool:` message instead of a propagated failure. -/
theorem claim_C4_dispatch_error_handling (handlers : List (String × ToolHandler))
    (tc : ToolCall) :
    (executeTool handlers tc).tool_call_id = tc.id ∧
    (executeTool handlers tc).role = "tool" ∧
    (handlers.find? (fun h => h.1 = tc.name) = none →
      (executeTool handlers tc).content = "Error: Unknown tool \"" ++ tc.name ++ "\"") ∧
    (∀ hd, handlers.find? (fun h => h.1 = tc.name) = some hd →
      Json.parse tc.arguments = none →
      (executeTool handlers tc).content = "Error executing tool: " ++ jsonSyntaxErrText) ∧
    (∀ hd args e, handlers.find? (fun h => h.1 = tc.name) = some hd →
      Json.parse tc.arguments = some args → hd.2 args = .error e →
      (executeTool handlers tc).content = "Error executing tool: " ++ e) := by
  refine ⟨?_, ?_, ?_, ?_, ?_⟩
  · rw [executeTool]
    cases hf : (handlers.find? (fun h => h.1 = tc.name)).map (fun h => h.2) with
    | none => rfl
    | some handler =>
      cases hp : Json.parse tc.arguments with
      | none => rfl
      | some args =>
        dsimp only
        cases hx : handler args with
        | ok r => rfl
        | error e => rfl
  · rw [executeTool]
    cases hf : (handlers.find? (fun h => h.1 = tc.name)).map (fun h => h.2) with
    | none => rfl
    | some handler =>
      cases hp : Json.parse tc.arguments with
      | none => rfl
      | some args =>
        dsimp only
        cases hx : handler args with
        | ok r => rfl
        | error e => rfl
  · intro hnone
    rw [executeTool, hnone]
    rfl
  · intro hd hsome hparse
    rw [executeTool, hsome]
    dsimp only [Option.map]
    rw [hparse]
  · intro hd args e hsome hparse herr
    rw [executeTool, hsome]
    dsimp only [Option.map]
    rw [hparse]
    dsimp only
    rw [herr]

/-- Closed instances of the conditional parts of C4: the unknown tool
`does_not_exist` is answered (not raised) with the unknown-tool message
and the invocation's id; with a registered tool, bad argument text and a
throwing handler each produce an `Error executing tool:` response. -/
theorem claim_C4_witness :
    executeTool [] ⟨"call-1", "does_not_exist", "\x7b\x7d"⟩ =
      ⟨"tool", "Error: Unknown tool \"does_not_exist\"", "call-1"⟩ ∧
    executeTool [("t", fun _ => .ok "fine")] ⟨"call-2", "t", "not json"⟩ =
      ⟨"tool", "Error executing tool: " ++ jsonSyntaxErrText, "call-2"⟩ ∧
    executeTool [("t", fun _ => .error "boom")] ⟨"call-3", "t", "\x7b\x7d"⟩ =
      ⟨"tool", "Error executing tool: boom", "call-3"⟩ := by
  refine ⟨?_, ?_, ?_⟩
  · have h := claim_C4_dispatch_error_handling [] ⟨"call-1", "does_not_exist", "\x7b\x7d"⟩
    have h3 := h.2.2.1 rfl
    calc executeTool [] ⟨"call-1", "does_not_exist", "\x7b\x7d"⟩
        = ⟨(executeTool [] ⟨"call-1", "does_not_exist", "\x7b\x7d"⟩).role,
           (executeTool [] ⟨"call-1", "does_not_exist", "\x7b\x7d"⟩).content,
           (executeTool [] ⟨"call-1", "does_not_exist", "\x7b\x7d"⟩).tool_call_id⟩ := rfl
      _ = ⟨"tool", "Error: Unknown tool \"does_not_exist\"", "call-1"⟩ := by
          rw [h.1, h.2.1, h3]
          rfl
  · have h := claim_C4_dispatch_error_handling [("t", fun _ => .ok "fine")]
      ⟨"call-2", "t", "not json"⟩
    have h3 := h.2.2.2.1 ("t", fun _ => .ok "fine") rfl rfl
    calc executeTool [("t", fun _ => .ok "fine")] ⟨"call-2", "t", "not json"⟩
        = ⟨(executeTool [("t", fun _ => .ok "fine")] ⟨"call-2", "t", "not json"⟩).role,
           (executeTool [("t", fun _ => .ok "fine")] ⟨"call-2", "t", "not json"⟩).content,
           (executeTool [("t", fun _ => .ok "fine")] ⟨"call-2", "t", "not json"⟩).tool_call_id⟩ := rfl
      _ = ⟨"tool", "Error executing tool: " ++ jsonSyntaxErrText, "call-2"⟩ := by
          rw [h.1, h.2.1, h3]
  · have h := claim_C4_dispatch_error_handling [("t", fun _ => .error "boom")]
      ⟨"call-3", "t", "\x7b\x7d"⟩
    have h3 := h.2.2.2.2 ("t", fun _ => .error "boom") (Json.obj []) "boom" rfl rfl rfl
    calc executeTool [("t", fun _ => .error "boom")] ⟨"call-3", "t", "\x7b\x7d"⟩
        = ⟨(executeTool [("t", fun _ => .error "boom")] ⟨"call-3", "t", "\x7b\x7d"⟩).role,
           (executeTool [("t", fun _ => .error "boom")] ⟨"call-3", "t", "\x7b\x7d"⟩).content,
           (executeTool [("t", fun _ => .error "boom")] ⟨"call-3", "t", "\x7b\x7d"⟩).tool_call_id⟩ := rfl
      _ = ⟨"tool", "Error executing tool: boom", "call-3"⟩ := by
          rw [h.1, h.2.1, h3]
          rfl

/-- C5: with conversation history enabled, saving a session and loading
it back by the saved id reproduces the session id and the full turn list
exactly — same order, same roles, same content characters (including
tool-call payloads), for every session over every prior store state. -/
theorem claim_C5_save_load_roundtrip (store : FileStore) (sid date : String)
    (msgs : List ChatMessage) :
    loadSession (saveSession true sid date msgs store) sid = some (sid, msgs) :=
  loadSession_saveSession store sid date msgs

/-- C6: when the streaming request fails, `sendMessage` appends only the
user turn: the partial streamed content (already shown incrementally) is
never committed as an assistant turn, the store is untouched, the
failure is reported as an error display, and the engine state is
otherwise unchanged, so the session continues. -/
theorem claim_C6_stream_error_discards_partial (env : ChatEnv) (st : ChatState)
    (content : String) (partialChunks : List String) (msg : String) :
    sendMessage { env with streamResult := .err partialChunks msg } st content =
      ({ st with messages := st.messages ++ [ChatMessage.mk Role.user content none none] },
        partialChunks.map Display.chunk ++
          [.error ("Failed to get response: " ++ msg)]) := rfl

/-- A concrete interaction environment used by closed instances. -/
def env0 : ChatEnv :=
  ⟨.ok [], "", none, false, "", false, false, none, .ok [], fun _ => 0, "now"⟩

/-- A concrete engine state used by closed instances (default
configuration, empty transcript, empty history directory). -/
def st0 : ChatState :=
  ⟨⟨"llama3.1-8b", (7 : Rat) / 10, 1024, "colorful", true⟩, [], "sess", [], true⟩

/-- C7: `/temp <arg>`:  an argument parsing (per `parseFloat`) to a
value inside `[0, 2]` is stored; an argument parsing outside the range,
or not parsing at all (`NaN`, infinities), leaves the stored temperature
unchanged and reports the validation error. -/
theorem claim_C7_temp_validation (env : ChatEnv) (st : ChatState) (arg : String)
    (h : arg ≠ "") :
    (∀ t, jsParseFloat arg = some t → 0 ≤ t → t ≤ 2 →
      handleCommand env st ("/temp " ++ arg) =
        ({ st with config := { st.config with temperature := t } },
          [.numSuccess "Temperature set to: " t])) ∧
    (∀ t, jsParseFloat arg = some t → ¬ (0 ≤ t ∧ t ≤ 2) →
      handleCommand env st ("/temp " ++ arg) =
        (st, [.error "Temperature must be between 0 and 2"])) ∧
    (jsParseFloat arg = none →
      handleCommand env st ("/temp " ++ arg) =
        (st, [.error "Temperature must be between 0 and 2"])) := by
  rw [handleCommand_temp_arg env st arg h]
  refine ⟨?_, ?_, ?_⟩
  · intro t hp h0 h2
    rw [hp]
    dsimp only
    rw [if_pos ⟨h0, h2⟩]
  · intro t hp hnot
    rw [hp]
    dsimp only
    rw [if_neg hnot]
  · intro hp
    rw [hp]

/-- Closed instance of C7 at scenario C: `/temp 5` is out of range, the
stored temperature (0.7) is unchanged and the validation error is the
only output. -/
theorem claim_C7_witness :
    handleCommand env0 st0 "/temp 5" = (st0, [.error "Temperature must be between 0 and 2"]) ∧
    (handleCommand env0 st0 "/temp 5").1.config.temperature = (7 : Rat) / 10 := by
  have hp : jsParseFloat "5" = some 5 := by
    have h0 : jsParseFloat "5" =
        some ((1 : Rat) * (((5 : Nat) : Rat) + ((0 : Nat) : Rat) / (10 : Rat) ^ (0 : Nat)) *
          (10 : Rat) ^ (0 : Int)) := rfl
    rw [h0]
    norm_num
  have h := (claim_C7_temp_validation env0 st0 "5" (by decide)).2.1 5 hp (by norm_num)
  have hs : ("/temp " ++ "5" : String) = "/temp 5" := rfl
  rw [hs] at h
  refine ⟨h, ?_⟩
  rw [h]
  rfl

/-- Display shapes that only show a current value (what the no-argument
`/temp`, `/tokens` and `/theme` branches emit). -/
def isInfoDisplay : Display → Bool
  | .info _ => true
  | .numInfo _ _ => true
  | .intInfo _ _ => true
  | _ => false

/-- C8 counterexample: the claim fails on two of the five listed
commands.  `/system` with the argument omitted emits a warning — not a
display of the current system prompt; `/model` with the argument omitted
runs the interactive model picker and then sets the configured model to
the selection, mutating the configuration. -/
theorem claim_C8_counterexample :
    handleCommand env0 st0 "/system" = (st0, [.warning "Please provide a system prompt"]) ∧
    (handleCommand env0 st0 "/system").2.all isInfoDisplay = false ∧
    (handleCommand { env0 with modelsResult := .ok ["m1"], modelSelection := "other" } st0
        "/model").1.config.model = "other" ∧
    st0.config.model ≠ "other" :=
  ⟨rfl, rfl, rfl, by decide⟩

/-- C8 amended: with the optional argument omitted, `/temp`, `/tokens`
and `/theme` display the current value and mutate neither configuration
nor transcript; `/system` emits a warning and mutates nothing; `/model`
opens the model picker and sets the configured model to the selection
(or reports an error when the model list cannot be fetched, changing
nothing). -/
theorem claim_C8_amended (env : ChatEnv) (st : ChatState) :
    handleCommand env st "/temp" =
      (st, [.numInfo "Current temperature: " st.config.temperature]) ∧
    handleCommand env st "/tokens" =
      (st, [.intInfo "Current max tokens: " st.config.maxTokens]) ∧
    handleCommand env st "/theme" = (st, [.info ("Current theme: " ++ st.config.theme)]) ∧
    handleCommand env st "/system" = (st, [.warning "Please provide a system prompt"]) ∧
    (∀ ms, env.modelsResult = .ok ms →
      handleCommand env st "/model" =
        ({ st with config := { st.config with model := env.modelSelection } },
          [.modelList ms, .success ("Model changed to: " ++ env.modelSelection)])) ∧
    (∀ e, env.modelsResult = .error e →
      handleCommand env st "/model" = (st, [.error ("Failed to fetch models: " ++ e)])) := by
  refine ⟨rfl, rfl, rfl, rfl, ?_, ?_⟩
  · intro ms hms
    have hm : handleCommand env st "/model" = showModels env st := rfl
    rw [hm, showModels, hms]
  · intro e he
    have hm : handleCommand env st "/model" = showModels env st := rfl
    rw [hm, showModels, he]

/-- Closed instances of the conditional `/model` parts of the amended
C8. -/
theorem claim_C8_amended_witness :
    handleCommand { env0 with modelsResult := .ok ["m1"], modelSelection := "m1" } st0
        "/model" =
      ({ st0 with config := { st0.config with model := "m1" } },
        [.modelList ["m1"], .success ("Model changed to: " ++ "m1")]) ∧
    handleCommand { env0 with modelsResult := .error "down" } st0 "/model" =
      (st0, [.error ("Failed to fetch models: " ++ "down")]) := by
  have h1 := (claim_C8_amended
    { env0 with modelsResult := .ok ["m1"], modelSelection := "m1" } st0).2.2.2.2.1 ["m1"] rfl
  have h2 := (claim_C8_amended
    { env0 with modelsResult := .error "down" } st0).2.2.2.2.2 "down" rfl
  exact ⟨h1, h2⟩

/-- `trim` never lengthens a string. -/
theorem dropWhile_length_le (p : Char → Bool) (l : List Char) :
    (l.dropWhile p).length ≤ l.length := by
  induction l with
  | nil => simp [List.dropWhile]
  | cons a t ih =>
    by_cases h : p a
    · simp only [List.dropWhile, h]
      simp only [List.length_cons]
      omega
    · simp [List.dropWhile, h]

theorem jsTrim_length_le (l : List Char) : (jsTrim l).length ≤ l.length := by
  unfold jsTrim
  rw [List.length_reverse]
  refine le_trans (dropWhile_length_le _ _) ?_
  rw [List.length_reverse]
  exact dropWhile_length_le _ _

/-- C9: the snippet built around the first match keeps at most 50
characters of context on each side of the match and at most one
three-character ellipsis per truncated side, so its length never
exceeds the query length plus 106, wherever the match sits. -/
theorem claim_C9_snippet_length (content query : List Char) :
    (extractSnippet content query 50).length ≤ query.length + 106 := by
  unfold extractSnippet
  cases hidx : firstIdx (jsToLower content) (jsToLower query) with
  | none => simp
  | some index =>
    dsimp only
    refine le_trans (jsTrim_length_le _) ?_
    have h0 : ((content.take (min content.length (index + query.length + 50))).drop
        (index - 50)).length ≤ query.length + 100 := by
      rw [List.length_drop, List.length_take]
      omega
    split
    · split
      · simp only [List.length_append, List.length_cons, List.length_nil]
        omega
      · simp only [List.length_append, List.length_cons, List.length_nil]
        omega
    · split
      · simp only [List.length_append, List.length_cons, List.length_nil]
        omega
      · omega

/-- Dispatch of `/search <query>` (non-empty query) reduced to
`searchConversations`. -/
theorem handleCommand_search_arg (env : ChatEnv) (st : ChatState) (query : String)
    (h : query ≠ "") :
    handleCommand env st ("/search " ++ query) = searchConversations env st query := by
  have hdrop : ("/search " ++ query).data.drop 1 =
      's' :: 'e' :: 'a' :: 'r' :: 'c' :: 'h' :: ' ' :: query.data := rfl
  have hsplit : jsSplit [' '] ('s' :: 'e' :: 'a' :: 'r' :: 'c' :: 'h' :: ' ' :: query.data) =
      "search".data :: jsSplit [' '] query.data := by
    rw [jsSplit_cons_not_sep _ _ (by simp), jsSplit_cons_not_sep _ _ (by simp),
      jsSplit_cons_not_sep _ _ (by simp), jsSplit_cons_not_sep _ _ (by simp),
      jsSplit_cons_not_sep _ _ (by simp), jsSplit_cons_not_sep _ _ (by simp),
      jsSplit_cons_sep]
  simp only [handleCommand, hdrop, hsplit]
  have hcmd : jsToLower (((['s', 'e', 'a', 'r', 'c', 'h'] : List Char) ::
      jsSplit [' '] query.data).head?.getD []) = ['s', 'e', 'a', 'r', 'c', 'h'] := by
    show jsToLower ['s', 'e', 'a', 'r', 'c', 'h'] = ['s', 'e', 'a', 'r', 'c', 'h']
    decide
  rw [hcmd]
  have harg : (String.mk (jsJoin [' '] (List.drop 1 ((['s', 'e', 'a', 'r', 'c', 'h'] : List Char) ::
      jsSplit [' '] query.data)))) = query := by
    show String.mk (jsJoin [' '] (jsSplit [' '] query.data)) = query
    rw [jsJoin_jsSplit]
  rw [harg]
  rw [if_neg (by decide : ¬ ((['s', 'e', 'a', 'r', 'c', 'h'] : List Char) = ['h', 'e', 'l', 'p']))]
  rw [if_neg (by decide : ¬ ((['s', 'e', 'a', 'r', 'c', 'h'] : List Char) = ['c', 'l', 'e', 'a', 'r']))]
  rw [if_neg (by decide : ¬ ((['s', 'e', 'a', 'r', 'c', 'h'] : List Char) = ['s', 'a', 'v', 'e']))]
  rw [if_neg (by decide : ¬ ((['s', 'e', 'a', 'r', 'c', 'h'] : List Char) = ['h', 'i', 's', 't', 'o', 'r', 'y']))]
  rw [if_neg (by decide : ¬ ((['s', 'e', 'a', 'r', 'c', 'h'] : List Char) = ['c', 'o', 'p', 'y']))]
  rw [if_neg (by decide : ¬ ((['s', 'e', 'a', 'r', 'c', 'h'] : List Char) = ['m', 'o', 'd', 'e', 'l']))]
  rw [if_neg (by decide : ¬ ((['s', 'e', 'a', 'r', 'c', 'h'] : List Char) = ['s', 'y', 's', 't', 'e', 'm']))]
  rw [if_neg (by decide : ¬ ((['s', 'e', 'a', 'r', 'c', 'h'] : List Char) = ['t', 'e', 'm', 'p'] ∨
    (['s', 'e', 'a', 'r', 'c', 'h'] : List Char) = "temperature".data))]
  rw [if_neg (by decide : ¬ ((['s', 'e', 'a', 'r', 'c', 'h'] : List Char) = ['t', 'o', 'k', 'e', 'n', 's'] ∨
    (['s', 'e', 'a', 'r', 'c', 'h'] : List Char) = "maxtokens".data))]
  rw [if_neg (by decide : ¬ ((['s', 'e', 'a', 'r', 'c', 'h'] : List Char) = ['t', 'h', 'e', 'm', 'e']))]
  rw [if_neg (by decide : ¬ ((['s', 'e', 'a', 'r', 'c', 'h'] : List Char) = ['f', 'i', 'l', 'e'] ∨
    (['s', 'e', 'a', 'r', 'c', 'h'] : List Char) = "read".data))]
  rw [if_neg (by decide : ¬ ((['s', 'e', 'a', 'r', 'c', 'h'] : List Char) = ['e', 'x', 'p', 'o', 'r', 't']))]
  rw [if_pos (rfl : (['s', 'e', 'a', 'r', 'c', 'h'] : List Char) = ['s', 'e', 'a', 'r', 'c', 'h'])]
  rw [if_pos h]

/-- C10: once `/search` runs over a store whose listing is non-empty
(and the load-a-result prompt is declined), the live transcript is
empty: the search loop loaded each stored session into the live
conversation and the final `clear` discarded whatever was in memory
before the command. -/
theorem claim_C10_search_clears_transcript (env : ChatEnv) (st : ChatState) (query : String)
    (hs : listSessions env.getTime st.store ≠ [])
    (hq : query ≠ "")
    (hl : env.searchLoadAnswer = false) :
    (handleCommand env st ("/search " ++ query)).1.messages = [] := by
  rw [handleCommand_search_arg env st query hq]
  unfold searchConversations
  have hne : (listSessions env.getTime st.store).isEmpty = false := by
    cases hc : listSessions env.getTime st.store with
    | nil => exact absurd hc hs
    | cons a t => rfl
  rw [if_neg (by simp [hne])]
  dsimp only
  split
  · rfl
  · rw [hl]
    rfl

/-- A one-session store for the closed instance of C10. -/
def c10store : FileStore :=
  [("s.json", "\x7b\"id\":\"s\",\"date\":\"1\",\"messages\":[]\x7d")]

/-- An engine state over that store whose transcript is non-empty before
the search. -/
def c10st : ChatState :=
  ⟨⟨"llama3.1-8b", (7 : Rat) / 10, 1024, "colorful", true⟩,
    [ChatMessage.mk Role.user "hi" none none], "sess", c10store, true⟩

/-- Closed instance of C10: a `/search` over a one-session store empties
a previously non-empty transcript. -/
theorem claim_C10_witness :
    (handleCommand env0 c10st "/search hi").1.messages = [] ∧ c10st.messages ≠ [] := by
  have hs : listSessions env0.getTime c10st.store ≠ [] := by
    intro hcon
    have h2 : (listSessions env0.getTime c10st.store).length = 1 := by
      show (List.mergeSort _ _).length = 1
      rw [List.length_mergeSort]
      rfl
    rw [hcon] at h2
    simp at h2
  exact ⟨claim_C10_search_clears_transcript env0 c10st "hi" hs (by decide) rfl,
    List.cons_ne_nil _ _⟩
